import Mathlib

/-!
# Verification of the `term` process/stream runtime

Shallow embedding of the process model and stream/pipeline runtime of the
browser terminal emulator (source: `src/unnamed/part_001`, the current
version of the program; `src/unnamed/part_000` and `src/term.js` are older
revisions superseded by it).

Modelling conventions:
* JavaScript objects forming the process graph become a `World` holding an
  association list from process ids (`Nat`) to `Proc` records.  `stdin`,
  `stdout`, `stderr`, `parent`, `children` and `job` hold process ids.
* Dynamic dispatch over `Program` subclasses becomes a `Kind` tag carried by
  each process; subclass-local mutable fields live inside the tag.
* JavaScript numbers used as exit codes / counters become `Int`; `NaN`
  (from `Number.parseInt` / `parseFloat`) becomes `Option Int` with `none`
  for `NaN`.
* The runtime is single-threaded and cooperative.  The synchronous part of
  every operation is modelled exactly; promise continuations (timer, HTTP,
  storage reads) are modelled as separate entry points where a claim needs
  them, otherwise they are recorded as pending and never fire inside a
  synchronous step, exactly as in the event loop.
* The mutually recursive methods (`execute` / `exit` / `eof` / `write` /
  hooks) are given a fuel parameter to make them total; exhausted fuel
  returns the world unchanged.  All claims are stated for sufficient fuel.
* DOM effects are abstracted: the terminal's output pane is the list of
  payloads appended to it, and repainting (`updateInput`) is recorded as an
  event in an instrumentation log that also records effective `execute`,
  `eof`-delivery, handler invocation and `exit` transitions.
* The `Editor` (`vi`, 400 lines of modal key handling) and `Interpreter`
  (`js`, which `eval`s arbitrary JavaScript) are outside every claim's
  scope and are not modelled; their `bin` table entries are omitted.
-/

/-! ## JavaScript string and number helpers -/

/-- Whitespace characters matched by the source's `/\\s+/` and `/[ \\t]/`
token patterns (ASCII subset; the inputs in scope contain no exotic
whitespace). -/
def isWsChar (c : Char) : Bool :=
  c == ' ' || c == '\t' || c == '\n' || c == '\r'

/-- `String.trim` re-implemented over the character list (the core
version is compiled by well-founded recursion and does not reduce in the
kernel; this one does, and agrees with JavaScript `trim` on the inputs
in scope). -/
def strTrim (s : String) : String :=
  String.mk (((s.data.dropWhile (fun c => isWsChar c)).reverse.dropWhile
    (fun c => isWsChar c)).reverse)

def splitCharsAux (p : Char → Bool) : List Char → List Char → List String
  | [], acc => [String.mk acc.reverse]
  | c :: cs, acc =>
    if p c then String.mk acc.reverse :: splitCharsAux p cs []
    else splitCharsAux p cs (c :: acc)

/-- JavaScript `String.split` on a single-character (class) separator:
every separator occurrence splits, empty pieces preserved, and the empty
string yields `[""]`. -/
def splitChars (p : Char → Bool) (s : String) : List String :=
  splitCharsAux p s.data []

/-- `Array.prototype.join(sep)` / `String.intercalate`. -/
def joinSep (sep : String) : List String → String
  | [] => ""
  | [x] => x
  | x :: xs => x ++ sep ++ joinSep sep xs

def digitChar (n : Nat) : Char :=
  match n with
  | 0 => '0' | 1 => '1' | 2 => '2' | 3 => '3' | 4 => '4'
  | 5 => '5' | 6 => '6' | 7 => '7' | 8 => '8' | _ => '9'

def natDigits : Nat → Nat → List Char
  | 0, _ => []
  | _ + 1, 0 => []
  | fuel + 1, n => natDigits fuel (n / 10) ++ [digitChar (n % 10)]

/-- `Number.prototype.toString` for the integers in scope. -/
def natToString (n : Nat) : String :=
  if n = 0 then "0" else String.mk (natDigits (n + 1) n)

def intToString : Int → String
  | .ofNat n => natToString n
  | .negSucc n => "-" ++ natToString (n + 1)

/-- Substring containment over character lists (used to model
`RegExp.test` for literal patterns). -/
def containsAux (pat : List Char) : List Char → Bool
  | [] => pat.isPrefixOf []
  | c :: cs => pat.isPrefixOf (c :: cs) || containsAux pat cs

/-- `escapeHTML` from the source: `&` to `&amp;`, `<` to `&lt;`, `>` to
`&gt;`.  The source chains three global `String.replace` calls; since the
replacement text for `&` introduces no `<`/`>` and the later passes
introduce `&` only inside already-produced entities that the earlier pass
no longer visits, the chained form coincides with this single character
map on every input. -/
def escapeHTML (s : String) : String :=
  String.join (s.data.map (fun c =>
    if c = '&' then "&amp;"
    else if c = '<' then "&lt;"
    else if c = '>' then "&gt;"
    else String.singleton c))

/-- `span(str, cls)` from the source: wrap a string in an HTML span with a
class. -/
def span (str cls : String) : String :=
  "<span class=\"" ++ cls ++ "\">" ++ str ++ "</span>"

/-- Leading decimal digits of a character list, as `Number.parseInt` reads
them: `none` when the first character is not a digit (`NaN`). -/
def parseDigits : List Char → Option Nat
  | [] => none
  | c :: cs =>
    if c.isDigit then
      some ((c :: cs).takeWhile Char.isDigit |>.foldl
        (fun acc d => acc * 10 + (d.toNat - '0'.toNat)) 0)
    else none

/-- `Number.parseInt(s)` for a possibly-`undefined` string argument:
`none` models `NaN`.  Parses optional sign followed by a digit prefix
(radix-10; the inputs in scope are plain decimal). -/
def jsParseInt : Option String → Option Int
  | none => none
  | some s =>
    let t := strTrim s
    match t.data with
    | '-' :: cs => (parseDigits cs).map (fun n => -(n : Int))
    | '+' :: cs => (parseDigits cs).map (fun n => (n : Int))
    | cs => (parseDigits cs).map (fun n => (n : Int))

/-- Whether `Number.parseFloat(s)` yields `NaN`: true iff the (trimmed)
string does not start with an optionally signed decimal number. -/
def jsParseFloatIsNaN (s : String) : Bool :=
  let t := strTrim s
  let body := match t.data with
    | '-' :: cs => cs
    | '+' :: cs => cs
    | cs => cs
  match body with
  | [] => true
  | c :: cs => !(c.isDigit || (c = '.' && match cs with
      | d :: _ => d.isDigit
      | [] => false))

/-- JavaScript `x || d` for a number `x` that may be `NaN` (`none`):
`NaN` and `0` are falsy, every other number is truthy. -/
def jsOrDefault (x : Option Int) (d : Int) : Int :=
  match x with
  | none => d
  | some v => if v = 0 then d else v

/-- `Array.prototype.slice(start)` with a possibly negative integer start
index. -/
def jsSliceFrom (l : List α) (start : Int) : List α :=
  if 0 ≤ start then l.drop start.toNat
  else l.drop (max ((l.length : Int) + start) 0).toNat

/-- `e.trim().split(/\s+/)` from `Shell.queueJob`.  JavaScript `split`
never returns an empty array on these inputs: `''.split(/\s+/)` is
`['']`, and a trimmed non-empty string always yields at least one
non-empty token; the final guard makes that explicit. -/
def jsTrimSplitWs (s : String) : List String :=
  let t := strTrim s
  if t = "" then [""]
  else
    let pieces := (splitChars (fun c => isWsChar c) t).filter (fun p => p ≠ "")
    if pieces = [] then [""] else pieces

theorem jsTrimSplitWs_ne_nil (s : String) : jsTrimSplitWs s ≠ [] := by
  unfold jsTrimSplitWs
  dsimp only
  split
  · simp
  · split
    · simp
    · assumption

/-! ## Output values

The tagged payload type flowing between processes, with `str` (flat
string) and `items` (decomposition used by the filters).  `ObjectOutput`
inherits the base `items` (a one-element list containing itself). -/

inductive Output where
  | raw (content : String)
  | text (content : String)
  | arr (content : List Output) (format : Option String)
  | obj (content : String)
deriving Inhabited

mutual

def Output.str : Output → String
  | .raw s => s
  | .text s => s
  | .arr l _ => joinSep "\n" (Output.strList l)
  | .obj s => s

def Output.strList : List Output → List String
  | [] => []
  | o :: os => Output.str o :: Output.strList os

end

theorem Output.strList_eq_map (l : List Output) :
    Output.strList l = l.map Output.str := by
  induction l with
  | nil => rfl
  | cons o os ih => simp [Output.strList, ih]

/-- `items()`: Raw/Text split on line breaks, Array yields its members,
Object falls through to the base implementation yielding itself. -/
def Output.items : Output → List Output
  | .raw s => (splitChars (fun c => c == '\n') s).map Output.raw
  | .text s => (splitChars (fun c => c == '\n') s).map Output.text
  | .arr l _ => l
  | o => [o]

/-! ## Process state and data model -/

/-- `READY` / `RUNNING` / `TERMINATED` symbols. -/
inductive PState where
  | ready
  | running
  | terminated
deriving DecidableEq

/-- Rank used to state monotonicity of the lifecycle. -/
def stateRank : PState → Nat
  | .ready => 0
  | .running => 1
  | .terminated => 2

/-- Instrumentation events recorded by the model (not part of the source;
they make ordering and at-most-once observations expressible). -/
inductive Event where
  | execStart (p : Nat)
  | eofDelivered (p : Nat)
  | exited (p : Nat) (code : Int)
  | onWriteInvoked (p : Nat)
  | updateInputCalled (p : Nat)
deriving DecidableEq

/-- Shell history-persistence promise slot:
`undefined` (before loading), `null` (idle, may write), or an in-flight
write promise. -/
inductive HistP where
  | undef
  | null
  | inFlight
deriving DecidableEq

/-- Shell-local mutable fields. -/
structure ShellState where
  exitCode : Int := 0
  jobRunning : Bool := false
  jobs : List (List (List String)) := []
  historyPromise : HistP := .undef
  loaded : Bool := false
  script : Option String := none
deriving DecidableEq

/-- Terminal-local mutable fields: the line-editor buffer and the output
pane contents (the DOM pane abstracted as the list of appended payloads). -/
structure TermState where
  inputContent : String := ""
  inputNewest : String := ""
  inputCursor : Nat := 0
  outputs : List Output := []

/-- Subclass tag with subclass-local state.  `monitorRead`, `callerSet`
and `callerExit` carry the pid of the shell whose closure they run
(`this` in the source callbacks). -/
inductive Kind where
  | generic
  | term (ts : TermState)
  | termError
  | shell (ss : ShellState)
  | monitorRead (shellPid : Nat)
  | printer (content : String)
  | callerEcho
  | callerSet (shellPid : Nat)
  | callerExit (shellPid : Nat)
  | cat (pendingRead : Bool)
  | tee (file : Option String) (buf : List String) (pending : Bool)
  | list
  | move
  | remove
  | curl (pending : Bool)
  | head (counter : Option Int)
  | tail (counter : Option Int) (items : List Output)
  | grep (pattern : Option String) (matched : Bool)
  | sleep (pending : Bool)
  | processes
  | clear

/-- A process: the fields of `Program` plus the subclass tag. -/
structure Proc where
  prompt : String := ""
  exitInput : String := ""
  inputEnabled : Bool := false
  echo : Bool := true
  password : Bool := false
  rawInput : Bool := false
  history : List String := []
  historyIndex : Nat := 0
  parent : Option Nat := none
  children : List Nat := []
  job : List Nat := []
  -- source field name `variables` (a reserved word in Lean)
  vars : List (String × String) := []
  state : PState := .ready
  tty : Bool := false
  inputEnded : Bool := false
  stdin : Nat := 0
  stdout : Nat := 0
  stderr : Nat := 0
  args : List String := []
  kind : Kind := .generic

/-- The world: process table (association list, first match wins; fresh
pids are appended so existing bindings are never shadowed), allocation
counter, instrumentation log (append-only), and the flat key-value
storage backing the virtual filesystem. -/
structure World where
  procs : List (Nat × Proc) := []
  nextPid : Nat := 0
  log : List Event := []
  store : List (String × String) := []

namespace World

def find (w : World) (p : Nat) : Option Proc :=
  (w.procs.lookup p)

/-- Update the process bound to `p` (all entries with that key, so the
first-match view stays consistent even in ill-formed tables). -/
def updF (w : World) (p : Nat) (f : Proc → Proc) : World :=
  { w with procs := w.procs.map (fun e => (e.1, if e.1 = p then f e.2 else e.2)) }

/-- Append an instrumentation event. -/
def logE (w : World) (e : Event) : World :=
  { w with log := w.log ++ [e] }

/-- Allocate a fresh process, returning its pid. -/
def alloc (w : World) (π : Proc) : World × Nat :=
  ({ w with procs := w.procs ++ [(w.nextPid, π)], nextPid := w.nextPid + 1 },
   w.nextPid)

/-- `localStorage.setItem` (JavaScript `Map`-like set: overwrite in place
or append). -/
def setStore (w : World) (k v : String) : World :=
  { w with store :=
      if (w.store.lookup k).isSome then
        w.store.map (fun e => if e.1 = k then (e.1, v) else e)
      else w.store ++ [(k, v)] }

/-- `localStorage.removeItem`. -/
def removeStore (w : World) (k : String) : World :=
  { w with store := w.store.filter (fun e => e.1 ≠ k) }

def stateOf (w : World) (p : Nat) : Option PState :=
  (w.find p).map Proc.state

def stdinOf (w : World) (p : Nat) : Option Nat :=
  (w.find p).map Proc.stdin

def stdoutOf (w : World) (p : Nat) : Option Nat :=
  (w.find p).map Proc.stdout

/-- `this.job.every(e => e.state === TERMINATED)` (`Program.jobReturned`).
A pid missing from the table counts as not terminated. -/
def jobReturned (w : World) (job : List Nat) : Bool :=
  job.all (fun q => w.stateOf q = some .terminated)

end World

/-- JavaScript `Map` set semantics on an association list: overwrite in
place, else append (insertion order preserved). -/
def mapSet (m : List (String × String)) (k v : String) : List (String × String) :=
  if (m.lookup k).isSome then
    m.map (fun e => if e.1 = k then (e.1, v) else e)
  else m ++ [(k, v)]

/-- `new Set().add` on the children list: no duplicates, insertion
order. -/
def setAdd (l : List Nat) (x : Nat) : List Nat :=
  if x ∈ l then l else l ++ [x]

/-- Count of `eofDelivered p` events in a log. -/
def eofCount (l : List Event) (p : Nat) : Nat :=
  l.countP (fun e => e = Event.eofDelivered p)

/-! ## Non-recursive helpers on worlds and processes -/

/-- Update the shell-local state of a shell process (no-op on other
kinds). -/
def updShell (w : World) (p : Nat) (f : ShellState → ShellState) : World :=
  w.updF p (fun π =>
    { π with kind := match π.kind with
        | .shell ss => .shell (f ss)
        | k => k })

/-- `Shell.setReturnCode`: set `variables['?']` (the JS map stores the
number; it is stringified here as every use site stringifies it), the
prompt (error-styled on non-zero), and `exitCode`. -/
def setReturnCode (w : World) (p : Nat) (code : Int) : World :=
  w.updF p (fun π =>
    { π with
        vars := mapSet π.vars "?" (intToString code),
        prompt := if code ≠ 0 then span "$ " "error" else "$ ",
        kind := match π.kind with
          | .shell ss => .shell { ss with exitCode := code }
          | k => k })

/-- `updateInput()` on a process: repaint for the terminal, ignored by the
base class.  The model records the invocation as an event; the DOM repaint
itself carries no further model state. -/
def updateInputM (w : World) (p : Nat) : World :=
  w.logE (.updateInputCalled p)

/-- `clearInput()`: the terminal clears its line buffer and resets the
foreground's history cursor; the base class ignores it. -/
def clearInputM (w : World) (t : Nat) : World :=
  match w.find t with
  | some π =>
    match π.kind with
    | .term ts =>
      let w := w.updF t (fun q =>
        { q with kind := .term { ts with inputContent := "", inputNewest := "", inputCursor := 0 } })
      w.updF π.stdout (fun q => { q with historyIndex := q.history.length })
    | _ => w
  | none => w

/-- `clearHistory()`: the terminal empties its output pane; the base class
ignores it. -/
def clearHistoryM (w : World) (t : Nat) : World :=
  match w.find t with
  | some π =>
    match π.kind with
    | .term ts => w.updF t (fun q => { q with kind := .term { ts with outputs := [] } })
    | _ => w
  | none => w

/-- `RegExp(pattern).test(s)` for the literal (metacharacter-free)
patterns the claims exercise: substring containment; the empty pattern
matches everything.  Full regular-expression semantics are outside the
claims' scope. -/
def jsRegexTest (pattern : Option String) (s : String) : Bool :=
  match pattern with
  | none => false
  | some p => containsAux p.data s.data

/-- One item pushed into `tail`'s ring buffer (`Tail.onWrite` loop body):
evict the oldest when the buffer has reached the count. -/
def tailPush (counter : Int) (acc : List Output) (item : Output) : List Output :=
  (if (acc.length : Int) = counter then acc.drop 1 else acc) ++ [item]

/-- `Tail.onWrite`: fold every item of the incoming payload into the ring
buffer. -/
def tailAccum (counter : Int) (acc : List Output) (xs : List Output) : List Output :=
  xs.foldl (tailPush counter) acc

/-- Constructor-name map used by `ps` (`proc.constructor.name`). -/
def kindName : Kind → String
  | .generic => "Program"
  | .term _ => "Term"
  | .termError => "TermError"
  | .shell _ => "Shell"
  | .monitorRead _ => "Monitor"
  | .printer _ => "Printer"
  | .callerEcho => "Caller"
  | .callerSet _ => "Caller"
  | .callerExit _ => "Caller"
  | .cat _ => "Cat"
  | .tee _ _ _ => "Tee"
  | .list => "List"
  | .move => "Move"
  | .remove => "Remove"
  | .curl _ => "Curl"
  | .head _ => "Head"
  | .tail _ _ => "Tail"
  | .grep _ _ => "Grep"
  | .sleep _ => "Sleep"
  | .processes => "Processes"
  | .clear => "Clear"

/-- `Processes.printTree`: the indented constructor-name tree rooted at a
process (depth bounded by fuel; the children graph is finite and acyclic
in every reachable world). -/
def psTree : Nat → World → Nat → Nat → List String
  | 0, _, _, _ => []
  | fuel + 1, w, p, level =>
    match w.find p with
    | none => []
    | some π =>
      (String.mk (List.replicate level ' ') ++ kindName π.kind) ::
        π.children.foldl (fun acc c => acc ++ psTree fuel w c (level + 2)) []

/-- The `Program` constructor for a child of `par` (pid `parentPid`)
composed with the subclass constructor chosen for `cmd` by
`Shell.createProcess` (special forms first, then the `bin` table; the two
name sets are disjoint, so a single match is equivalent).  `none` when the
command is not found.  The special-form closures capture the creating
shell's pid.  `vi` (Editor) and `js` (Interpreter) are not modelled (see
header). -/
def childFor (parentPid : Nat) (par : Proc) (selfPid : Nat) (cmd : String) : Option Proc :=
  let base : Proc :=
    { parent := some parentPid, job := [selfPid], vars := par.vars,
      stdin := par.stdin, stdout := par.stdout, stderr := par.stderr }
  match cmd with
  | "history" => some { base with kind := .printer (joinSep "\n" par.history) }
  | "read" => some { base with kind := .monitorRead parentPid, inputEnabled := true }
  | "echo" => some { base with kind := .callerEcho }
  | "set" => some { base with kind := .callerSet parentPid }
  | "exit" => some { base with kind := .callerExit parentPid }
  | "sh" => some { base with
      exitInput := "exit", prompt := "$ ",
      vars := mapSet par.vars "?" "0", kind := .shell ({} : ShellState) }
  | "cat" => some { base with kind := .cat false }
  | "tee" => some { base with kind := .tee none [] false }
  | "ls" => some { base with kind := .list }
  | "mv" => some { base with kind := .move }
  | "rm" => some { base with kind := .remove }
  | "curl" => some { base with kind := .curl false }
  | "head" => some { base with kind := .head none }
  | "tail" => some { base with kind := .tail none [] }
  | "grep" => some { base with kind := .grep none false }
  | "sleep" => some { base with kind := .sleep false }
  | "ps" => some { base with kind := .processes }
  | "clear" => some { base with kind := .clear }
  | _ => none

/-- The wiring loop of `Shell.nextJob`: for each stage set `job` to the
whole pipeline, `stdin` to the previous stage (when any) and `stdout` to
the next stage (when any). -/
def wirePipeline (w : World) (ps : List Nat) : World :=
  (List.range ps.length).foldl
    (fun w i =>
      match ps.get? i with
      | none => w
      | some q =>
        let w := w.updF q (fun π => { π with job := ps })
        let w := match (if 0 < i then ps.get? (i - 1) else none) with
          | some prev => w.updF q (fun π => { π with stdin := prev })
          | none => w
        match ps.get? (i + 1) with
        | some nxt => w.updF q (fun π => { π with stdout := nxt })
        | none => w) w

/-! ## The process runtime

The mutually recursive methods of `Program`, `Term`, `Shell` and the
utility subclasses.  `fuel` bounds recursion depth; every recursive call
uses the predecessor, and exhausted fuel returns the world (and the
JavaScript `false`/`undefined`-ish results) unchanged. -/

set_option maxHeartbeats 2000000

/-- The interpreter at a fixed recursion depth: one field per
mutually recursive method. -/
structure Interp where
  execute : World → Nat → List String → World
  eofP : World → Nat → World
  interruptP : World → Nat → World
  exitP : World → Nat → Int → World
  writeP : World → Nat → Output → Bool × World
  dispatchOnExecute : World → Nat → Option Int × World
  dispatchOnWrite : World → Nat → Output → Bool × World
  dispatchOnEOF : World → Nat → World
  defaultOnInterrupt : World → Nat → World
  dispatchOnInterrupt : World → Nat → World
  dispatchOnReturn : World → Nat → Nat → Int → World
  shellOnReturn : World → Nat → Nat → Int → World
  shellExecuteCommand : World → Nat → String → World
  shellQueueJob : World → Nat → String → World
  shellNextJob : World → Nat → World
  shellCreateProcess : World → Nat → String → Option Nat × World
  launchPipeline : World → Nat → List Nat → List (List String) → World
  shellProfileResolve : World → Nat → World
  shellScriptResolve : World → Nat → World
  termCtrlC : World → Nat → World
  termCtrlD : World → Nat → World

/-- Exhausted fuel: every method returns its inputs unchanged. -/
def interpZero : Interp where
  execute := fun w p args => w
  eofP := fun w p => w
  interruptP := fun w p => w
  exitP := fun w p code => w
  writeP := fun w p content => (false, w)
  dispatchOnExecute := fun w p => (none, w)
  dispatchOnWrite := fun w p content => (false, w)
  dispatchOnEOF := fun w p => w
  defaultOnInterrupt := fun w p => w
  dispatchOnInterrupt := fun w p => w
  dispatchOnReturn := fun w p child code => w
  shellOnReturn := fun w p child code => w
  shellExecuteCommand := fun w p content => w
  shellQueueJob := fun w p str => w
  shellNextJob := fun w p => w
  shellCreateProcess := fun w p cmd => (none, w)
  launchPipeline := fun w shellPid ps argss => w
  shellProfileResolve := fun w p => w
  shellScriptResolve := fun w p => w
  termCtrlC := fun w t => w
  termCtrlD := fun w t => w

/-- One step of the interpreter: the method bodies, with recursive
calls going through the previous level `I`.  `fuel` is the previous
level's depth (used only by the `ps` tree walk). -/
def interpStep (fuel : Nat) (I : Interp) : Interp where
  execute := fun w p args =>
    match w.find p with
    | none => w
    | some π =>
      if π.state ≠ .ready then w
      else
        let w := (w.updF p (fun q => { q with state := .running, args := args })).logE
          (.execStart p)
        let w := w.updF π.stdin (fun q => { q with stdout := p })
        let w := match π.parent with
          | some par => w.updF par (fun q => { q with children := setAdd q.children p })
          | none => w
        let rw := I.dispatchOnExecute w p
        let w := rw.2
        let w := match w.stdinOf p with
          | some sIn => if w.stateOf sIn = some .terminated then I.eofP w p else w
          | none => w
        match rw.1 with
        | some code => I.exitP w p code
        | none => w
  eofP := fun w p =>
    match w.find p with
    | none => w
    | some π =>
      if π.state ≠ .running ∨ π.inputEnded = true then w
      else
        let w := (w.updF p (fun q => { q with inputEnded := true })).logE (.eofDelivered p)
        I.dispatchOnEOF w p
  interruptP := fun w p =>
    match w.find p with
    | none => w
    | some π =>
      if π.state ≠ .running then w
      else I.dispatchOnInterrupt w p
  exitP := fun w p code =>
    match w.find p with
    | none => w
    | some π =>
      if π.state ≠ .running then w
      else
        let w := (w.updF p (fun q => { q with state := .terminated, inputEnabled := false })).logE
          (.exited p code)
        let w := π.children.foldl (fun w c => I.exitP w c 0) w
        let w := match w.stdoutOf p with
          | some o => I.eofP w o
          | none => w
        let w := match (w.find p).map Proc.stderr with
          | some e => I.eofP w e
          | none => w
        let w :=
          if w.jobReturned (((w.find p).map Proc.job).getD []) then
            match π.parent with
            | some par =>
              match w.stdinOf par with
              | some inp =>
                let w := w.updF inp (fun q => { q with stdout := par })
                updateInputM w inp
              | none => w
            | none => w -- JS would throw on the parentless terminal; unreachable
          else w
        match π.parent with
        | none => w
        | some par =>
          let w := w.updF par (fun q => { q with children := q.children.erase p })
          if w.stateOf par = some .running then I.dispatchOnReturn w par p code
          else w
  writeP := fun w p content =>
    match w.find p with
    | none => (false, w)
    | some π =>
      if π.state ≠ .running ∨ π.inputEnabled = false then (false, w)
      else
        let w := w.logE (.onWriteInvoked p)
        I.dispatchOnWrite w p content
  dispatchOnExecute := fun w p =>
    match w.find p with
    | none => (none, w)
    | some π =>
      match π.kind with
      | .generic => (none, w)
      | .term _ =>
        -- Term.onExecute(shell): construct a Shell child of the terminal,
        -- execute it, repaint.  (The JS argument is the Shell class value.)
        match childFor p π w.nextPid "sh" with
        | some πc =>
          let aw := w.alloc πc
          let w := I.execute aw.1 aw.2 []
          (none, updateInputM w p)
        | none => (none, w)
      | .termError => (none, w)
      | .shell _ =>
        match π.args.head? with
        | some script =>
          -- script mode: record the path; `Async.read(script)` resolves in
          -- `shellScriptResolve`
          (none, updShell w p (fun s => { s with script := some script }))
        | none =>
          if ((w.find π.stdin).map Proc.tty).getD false then
            -- interactive: `Async.read('.profile')` resolves in
            -- `shellProfileResolve`
            (none, w)
          else
            -- commands from stdin
            (none, updShell (w.updF p (fun q => { q with inputEnabled := true })) p
              (fun s => { s with script := some "-", loaded := true }))
      | .monitorRead _ => (none, w)
      | .printer content => (some 0, (I.writeP w π.stdout (.text content)).2)
      | .callerEcho =>
        let w := (I.writeP w π.stdout (.text (joinSep " " π.args))).2
        (some 0, w)
      | .callerSet shellPid =>
        let val := joinSep " " (π.args.drop 1)
        let w := w.updF shellPid (fun q =>
          { q with vars := mapSet q.vars (π.args.headD "undefined") val })
        let w := I.exitP w p 0
        (some 0, w)
      | .callerExit shellPid =>
        -- let code = Number.parseInt(proc.args[0] || 0)
        let parsed := match π.args.head? with
          | none => some (0 : Int)
          | some a => if a = "" then some (0 : Int) else jsParseInt (some a)
        match parsed with
        | some c => (some 0, I.exitP w shellPid c)
        | none =>
          let w := (I.writeP w π.stderr (.text
            ("sh: exit: " ++ π.args.headD "" ++ ": numeric argument required"))).2
          (some 0, I.exitP w shellPid 2)
      | .cat _ =>
        if π.args = [] then (none, w.updF p (fun q => { q with inputEnabled := true }))
        else
          -- Promise.all(files.map(Async.read)): resolution is asynchronous
          (none, w.updF p (fun q => { q with kind := .cat true }))
      | .tee _ _ _ =>
        let file := π.args.head?
        let w := w.updF p (fun q =>
          { q with inputEnabled := true, kind := .tee file [] true })
        -- Async.write(file, '') stores synchronously; its promise is pending
        (none, w.setStore (file.getD "undefined") "")
      | .list =>
        -- Async.list / then: asynchronous
        (none, w)
      | .move =>
        let path := π.args.headD ""
        let target := (π.args.get? 1).getD ""
        if path = "" then
          (some 1, (I.writeP w π.stderr (.text "mv: missing file operand")).2)
        else if target = "" then
          (some 1, (I.writeP w π.stderr (.text "mv: missing destination file operand")).2)
        else
          -- Async.move mutates storage synchronously; the then/catch
          -- continuations (exit / stderr+exit) are asynchronous
          match w.store.lookup path with
          | some content => (none, (w.setStore target content).removeStore path)
          | none => (none, w)
      | .remove =>
        if π.args = [] then
          (some 1, (I.writeP w π.stderr (.text "rm: missing operand")).2)
        else
          -- Async.remove mutates storage synchronously; the exit in
          -- Promise.all(...).then is asynchronous
          (none, π.args.foldl (fun w f => w.removeStore f) w)
      | .curl _ =>
        if π.args.headD "" = "" then
          (some 1, (I.writeP w π.stderr (.text "curl: missing url")).2)
        else (none, w.updF p (fun q => { q with kind := .curl true }))
      | .head _ =>
        match jsParseInt π.args.head? with
        | none => (some 1, (I.writeP w π.stderr (.text "head: invalid number of items")).2)
        | some c =>
          if c ≤ 0 then (some 0, w.updF p (fun q => { q with kind := .head (some c) }))
          else (none, w.updF p (fun q =>
            { q with inputEnabled := true, kind := .head (some c) }))
      | .tail _ _ =>
        match jsParseInt π.args.head? with
        | none => (some 1, (I.writeP w π.stderr (.text "tail: invalid number of items")).2)
        | some c =>
          if c ≤ 0 then (some 0, w.updF p (fun q => { q with kind := .tail (some c) [] }))
          else (none, w.updF p (fun q =>
            { q with inputEnabled := true, kind := .tail (some c) [] }))
      | .grep _ _ =>
        match π.args.head? with
        | none => (some 2, (I.writeP w π.stderr (.text "grep: missing pattern")).2)
        | some r => (none, w.updF p (fun q =>
            { q with inputEnabled := true, kind := .grep (some r) false }))
      | .sleep _ =>
        if jsParseFloatIsNaN (π.args.headD "") then
          (some 1, (I.writeP w π.stderr (.text "sleep: invalid time")).2)
        else
          -- Async.timeout(time * 1000): resolution is asynchronous
          (none, w.updF p (fun q => { q with kind := .sleep true }))
      | .processes =>
        let tree := psTree (fuel + 1) w π.stdin 0
        let w := (I.writeP w π.stdout (.arr (tree.map Output.text) none)).2
        (some 0, w)
      | .clear => (some 0, clearHistoryM w π.stdout)
  dispatchOnWrite := fun w p content =>
    match w.find p with
    | none => (false, w)
    | some π =>
      match π.kind with
      | .term ts =>
        (true, w.updF p (fun q =>
          { q with kind := .term { ts with outputs := ts.outputs ++ [content] } }))
      | .termError =>
        (true, (I.writeP w π.stdout (.raw (span (escapeHTML content.str) "error"))).2)
      | .shell ss =>
        -- Shell.onWrite: schedule a history write when idle, then run the
        -- line.  `Async.write` stores synchronously; its promise resolves in
        -- `shellHistWriteResolve`.
        let w :=
          if ss.historyPromise = .null then
            let size := jsParseInt (π.vars.lookup "HIST_SIZE")
            let start := jsOrDefault (size.map (fun k => (π.history.length : Int) - k)) 100
            let hist := jsSliceFrom π.history start
            let w := w.setStore ((π.vars.lookup "HIST_FILE").getD "undefined")
              (joinSep "\n" hist)
            updShell w p (fun s => { s with historyPromise := .inFlight })
          else w
        (true, I.shellExecuteCommand w p content.str)
      | .monitorRead shellPid =>
        let w := w.updF shellPid (fun q =>
          { q with vars := mapSet q.vars (π.args.headD "undefined") content.str })
        (true, I.exitP w p 0)
      | .cat _ =>
        (true, (I.writeP w π.stdout content).2)
      | .tee file buf pending =>
        let buf := buf ++ [content.str]
        let w := w.updF p (fun q => { q with kind := .tee file buf pending })
        let w := (I.writeP w π.stdout content).2
        -- appendNext: the initial write's promise is still pending within
        -- the synchronous horizon, so the buffer is kept
        (true, w)
      | .head counter =>
        match counter with
        | none => (true, w)
        | some c =>
          let items := content.items.take c.toNat
          let rw := I.writeP w π.stdout (.arr items none)
          if rw.1 = false then (true, I.exitP rw.2 p 0)
          else
            let c := c - items.length
            let w := rw.2.updF p (fun q => { q with kind := .head (some c) })
            if c = 0 then (true, I.exitP w p 0) else (true, w)
      | .tail counter items =>
        match counter with
        | none => (true, w)
        | some c =>
          (true, w.updF p (fun q =>
            { q with kind := .tail (some c) (tailAccum c items content.items) }))
      | .grep pattern _ =>
        -- `matches` in the source; renamed, the word is reserved in Lean
        let hits := content.items.filter (fun e => jsRegexTest pattern e.str)
        if hits.length = 0 then (true, w)
        else
          let w := (I.writeP w π.stdout (.arr hits none)).2
          (true, w.updF p (fun q =>
            { q with kind := match q.kind with
                | .grep pat _ => .grep pat true
                | k => k }))
      | _ => (false, w)
  dispatchOnEOF := fun w p =>
    match w.find p with
    | none => w
    | some π =>
      match π.kind with
      | .term _ => w
      | .termError => w
      | .shell ss => I.exitP w p ss.exitCode
      | .tail _ items =>
        let w := (I.writeP w π.stdout (.arr items none)).2
        I.exitP w p 0
      | .grep _ matched => I.exitP w p (if matched then 0 else 1)
      | _ => if π.inputEnabled then I.exitP w p 0 else w
  defaultOnInterrupt := fun w p =>
    match w.find p with
    | none => w
    | some π =>
      let w := match π.parent with
        | some par => I.interruptP w par
        | none => w
      I.exitP w p 130
  dispatchOnInterrupt := fun w p =>
    match w.find p with
    | none => w
    | some π =>
      match π.kind with
      | .shell _ =>
        if ((w.find π.stdin).map Proc.tty).getD false then w
        else I.defaultOnInterrupt w p
      | .curl _ =>
        I.defaultOnInterrupt (w.updF p (fun q => { q with kind := .curl false })) p
      | .sleep _ =>
        I.defaultOnInterrupt (w.updF p (fun q => { q with kind := .sleep false })) p
      | _ => I.defaultOnInterrupt w p
  dispatchOnReturn := fun w p child code =>
    match w.find p with
    | none => w
    | some π =>
      match π.kind with
      | .term _ =>
        let w := (I.writeP w p (.text ("[returned " ++ intToString code ++ "]"))).2
        w.updF p (fun q => { q with inputEnabled := false })
      | .shell _ => I.shellOnReturn w p child code
      | _ => w
  shellOnReturn := fun w p child code =>
    let cjob := ((w.find child).map Proc.job).getD []
    let w := if cjob.getLast? = some child then setReturnCode w p code else w
    if w.jobReturned cjob then
      let w := updShell w p (fun s => { s with jobRunning := false })
      match w.find p with
      | none => w
      | some π =>
        match π.kind with
        | .shell ss =>
          if ss.jobs ≠ [] then I.shellNextJob w p
          else if w.stateOf π.stdin ≠ some .terminated ∧ ss.script = none then
            let w := updateInputM w π.stdin
            if ss.loaded then w
            else
              let w := updShell w p (fun s => { s with loaded := true })
              -- if HIST_FILE is set, Async.read(histFile) starts here; its
              -- then/catch continuations are `shellHistLoadResolve`
              w
          else I.exitP w p ss.exitCode
        | _ => w
    else w
  shellExecuteCommand := fun w p content =>
    let w := (splitChars (fun c => c == '\n' || c == ';') content).foldl
      (fun w line => I.shellQueueJob w p line) w
    I.shellNextJob w p
  shellQueueJob := fun w p str =>
    if strTrim str = "" then w
    else
      let programs := (splitChars (fun c => c == '|') str).map jsTrimSplitWs
      if programs.any (fun e => e.length = 0) then
        let w := match (w.find p).map Proc.stderr with
          | some e => (I.writeP w e (.text "sh: invalid pipe")).2
          | none => w
        setReturnCode w p 1
      else updShell w p (fun s => { s with jobs := s.jobs ++ [programs] })
  shellNextJob := fun w p =>
    match w.find p with
    | none => w
    | some π =>
      match π.kind with
      | .shell ss =>
        if ss.jobRunning then w
        else
          match ss.jobs with
          | [] => w
          | programs :: rest =>
            let w := updShell w p (fun s => { s with jobs := rest })
            let acc := programs.foldl
              (fun (acc : World × List (Option Nat)) stage =>
                let ow := I.shellCreateProcess acc.1 p (stage.headD "")
                (ow.2, acc.2 ++ [ow.1]))
              (w, [])
            let w := acc.1
            if acc.2.any (fun o => o = none) then setReturnCode w p 127
            else
              let ps := acc.2.filterMap id
              let argss := programs.map (fun e => e.drop 1)
              let w := updShell w p (fun s => { s with jobRunning := true })
              let w := wirePipeline w ps
              let w := I.launchPipeline w p ps argss
              match w.stdinOf p with
              | some sIn => updateInputM w sIn
              | none => w
      | _ => w
  shellCreateProcess := fun w p cmd =>
    match w.find p with
    | none => (none, w)
    | some π =>
      match childFor p π w.nextPid cmd with
      | some πc =>
        let aw := w.alloc πc
        (some aw.2, aw.1)
      | none =>
        (none, (I.writeP w π.stderr (.text ("sh: command not found: " ++ cmd))).2)
  launchPipeline := fun w shellPid ps argss =>
    (ps.zip argss).reverse.foldl
      (fun w pa =>
        let vs := ((w.find shellPid).map Proc.vars).getD []
        let sub := pa.2.map (fun e =>
          match e.data with
          | '$' :: name => (vs.lookup (String.mk name)).getD ""
          | _ => e)
        I.execute w pa.1 sub) w
  shellProfileResolve := fun w p =>
    match w.find p with
    | none => w
    | some π =>
      match π.kind with
      | .shell _ =>
        match w.store.lookup ".profile" with
        | some content =>
          let w := w.updF p (fun q => { q with inputEnabled := true })
          I.shellExecuteCommand w p content
        | none =>
          let w := (I.writeP w π.stdout (.text "Welcome to Term v0.4")).2
          let w := w.updF p (fun q => { q with inputEnabled := true })
          let w := updShell w p (fun s => { s with loaded := true })
          updateInputM w π.stdin
      | _ => w
  shellScriptResolve := fun w p =>
    match w.find p with
    | none => w
    | some π =>
      match π.kind with
      | .shell ss =>
        match ss.script with
        | some path =>
          match w.store.lookup path with
          | some content =>
            let w := w.updF p (fun q => { q with inputEnabled := true })
            I.shellExecuteCommand w p content
          | none =>
            let w := (I.writeP w π.stderr (.text
              ("sh: " ++ path ++ ": no such file"))).2
            I.exitP w p 127
        | none => w
      | _ => w
  termCtrlC := fun w t =>
    match w.find t with
    | none => w
    | some π =>
      match π.kind with
      | .term _ =>
        match w.find π.stdout with
        | none => w
        | some πp =>
          if πp.rawInput then w
          else
            let w := clearInputM w t
            let w := πp.job.foldl (fun w q => I.interruptP w q) w
            updateInputM w t
      | _ => w
  termCtrlD := fun w t =>
    match w.find t with
    | none => w
    | some π =>
      match π.kind with
      | .term ts =>
        match w.find π.stdout with
        | none => w
        | some πp =>
          if πp.rawInput then w
          else if πp.inputEnabled = false ∨ ts.inputContent ≠ "" then updateInputM w t
          else
            let w :=
              if πp.echo = true ∨ πp.exitInput ≠ "" then
                (I.writeP w t (.raw
                  (span πp.prompt "prompt" ++ span (escapeHTML πp.exitInput) "input"))).2
              else w
            let w := I.eofP w π.stdout
            updateInputM w t
      | _ => w

/-- The interpreter, by plain structural recursion on the fuel. -/
def interp : Nat → Interp
  | 0 => interpZero
  | fuel + 1 => interpStep fuel (interp fuel)

/-- `Program.execute(args)`: only from READY; transition to RUNNING,
record `args`, claim the foreground (`this.stdin.stdout = this`),
register with the parent, run the subclass hook, deliver EOF immediately
when the upstream has already TERMINATED, and exit when the hook returned
a number. -/
def execute (fuel : Nat) : World → Nat → List String → World :=
  (interp fuel).execute

/-- `Program.eof()`: at most once; only while RUNNING and not already
ended; set `inputEnded`, then run the EOF hook. -/
def eofP (fuel : Nat) : World → Nat → World :=
  (interp fuel).eofP

/-- `Program.interrupt()`: run the interrupt hook while RUNNING. -/
def interruptP (fuel : Nat) : World → Nat → World :=
  (interp fuel).interruptP

/-- `Program.exit(code = 0)`: only while RUNNING; transition to
TERMINATED, clear `inputEnabled`, exit all children, deliver EOF to
stdout and stderr, restore the parent as foreground when the whole job
has returned, then deregister from the parent and notify it when it is
still RUNNING.

The source line `if (input.state === TERMINATED) this.eof();` is dead
code: its `let input` binding is scoped to the job-returned block, so
`input` here resolves to the page's `#input` DOM element, whose `.state`
is `undefined`; and even if the guard fired, `this.eof()` would be a
no-op because `this.state` is already TERMINATED.  It is therefore
modelled as a skip.

The children loop iterates the live set in the source; every deletion it
can trigger is of an already-terminated member, on which `exit` is a
no-op, so folding over a snapshot is equivalent. -/
def exitP (fuel : Nat) : World → Nat → Int → World :=
  (interp fuel).exitP

/-- `Program.write(content)`: deliver to the input handler iff RUNNING
and `inputEnabled`, else return `false` and change nothing.  The returned
Bool is `this.onWrite(content) !== false`. -/
def writeP (fuel : Nat) : World → Nat → Output → Bool × World :=
  (interp fuel).writeP

/-- Subclass `onExecute` hooks, dispatched on the kind.  The returned
`Option Int` is the hook's numeric return value (`none` for
`undefined`).  Arguments are read from the `args` field `execute` just
stored, as the source hooks read `this.args` / their parameters. -/
def dispatchOnExecute (fuel : Nat) : World → Nat → Option Int × World :=
  (interp fuel).dispatchOnExecute

/-- Subclass `onWrite` hooks.  The Bool is `result !== false`: only the
base-class implementation returns `false`. -/
def dispatchOnWrite (fuel : Nat) : World → Nat → Output → Bool × World :=
  (interp fuel).dispatchOnWrite

/-- Subclass `onEOF` hooks; the default exits normally when
`inputEnabled`. -/
def dispatchOnEOF (fuel : Nat) : World → Nat → World :=
  (interp fuel).dispatchOnEOF

/-- The default `Program.onInterrupt`: bubble to the parent, then exit
with 130. -/
def defaultOnInterrupt (fuel : Nat) : World → Nat → World :=
  (interp fuel).defaultOnInterrupt

/-- Subclass `onInterrupt` hooks: the shell ignores interrupts when its
stdin is a terminal; `curl` and `sleep` abort their in-flight handle and
fall through to the default. -/
def dispatchOnInterrupt (fuel : Nat) : World → Nat → World :=
  (interp fuel).dispatchOnInterrupt

/-- Subclass `onReturn` hooks: the terminal reports the session end and
disables input; the shell updates its return code and job bookkeeping. -/
def dispatchOnReturn (fuel : Nat) : World → Nat → Nat → Int → World :=
  (interp fuel).dispatchOnReturn

/-- `Shell.onReturn(prog, code)`: record the last stage's exit code, and
when the whole job has returned either launch the next job, repaint (and
once, after the first returned job, start loading the history file), or
exit when input is exhausted. -/
def shellOnReturn (fuel : Nat) : World → Nat → Nat → Int → World :=
  (interp fuel).shellOnReturn

/-- `Shell.executeCommand(content)`: split on newlines and semicolons,
queue each line, then pull the next job. -/
def shellExecuteCommand (fuel : Nat) : World → Nat → String → World :=
  (interp fuel).shellExecuteCommand

/-- `Shell.queueJob(str)`: ignore blank lines, tokenize the stages, emit
`sh: invalid pipe` with return code 1 when some stage has zero tokens
(dead in practice, see `queueJob_pipe_guard_dead`), else enqueue. -/
def shellQueueJob (fuel : Nat) : World → Nat → String → World :=
  (interp fuel).shellQueueJob

/-- `Shell.nextJob()`: when idle, take the next queued job, instantiate
each stage (return code 127 and drop the job when any command is
unknown), wire `job`/`stdin`/`stdout`, and launch the stages
right-to-left, then repaint. -/
def shellNextJob (fuel : Nat) : World → Nat → World :=
  (interp fuel).shellNextJob

/-- `Shell.createProcess(cmd)`: construct the process for a command name
(special forms, then the `bin` table), or report `command not found`. -/
def shellCreateProcess (fuel : Nat) : World → Nat → String → Option Nat × World :=
  (interp fuel).shellCreateProcess

/-- The launch loop of `Shell.nextJob`: execute the stages in reverse
order, substituting `$`-prefixed arguments from the shell's live variable
map (an undefined variable yields the empty string; see header). -/
def launchPipeline (fuel : Nat) : World → Nat → List Nat → List (List String) → World :=
  (interp fuel).launchPipeline

/-- The `.profile` read of interactive `Shell.onExecute` resolving (a
promise continuation; reads the live store): run the profile, or print
the greeting and become ready. -/
def shellProfileResolve (fuel : Nat) : World → Nat → World :=
  (interp fuel).shellProfileResolve

/-- The script read of `Shell.onExecute(script)` resolving: run the
script, or report `sh: <path>: no such file` and exit 127. -/
def shellScriptResolve (fuel : Nat) : World → Nat → World :=
  (interp fuel).shellScriptResolve

/-- Ctrl-C on the terminal (keydown handler): with a raw-input foreground
the event is forwarded to it (no modelled foreground uses raw input);
otherwise clear the input buffer, interrupt every member of the
foreground's job, and repaint. -/
def termCtrlC (fuel : Nat) : World → Nat → World :=
  (interp fuel).termCtrlC

/-- Ctrl-D on the terminal: only with input enabled and an empty line;
echo the foreground's `exitInput` when echoing, then deliver EOF to the
foreground; repaint in every case. -/
def termCtrlD (fuel : Nat) : World → Nat → World :=
  (interp fuel).termCtrlD


/-! ## Entry points and driver -/

/-- `writeText` / `writeRaw` wrappers (discarding the Bool like the
source call sites). -/
def writeTextM (fuel : Nat) (w : World) (p : Nat) (s : String) : World :=
  (writeP fuel w p (.text s)).2

def writeRawM (fuel : Nat) (w : World) (p : Nat) (s : String) : World :=
  (writeP fuel w p (.raw s)).2

/-- The resolution of an in-flight history write
(`this.historyPromise.then(() => { this.historyPromise = null; })`;
the rejection branch only logs, leaving the slot occupied). -/
def shellHistWriteResolve (w : World) (p : Nat) : World :=
  match w.find p with
  | some π =>
    match π.kind with
    | .shell ss =>
      if ss.historyPromise = .inFlight then
        updShell w p (fun s => { s with historyPromise := .null })
      else w
    | _ => w
  | none => w

/-- The resolution of the history-file read started by the first returned
job (`Async.read(histFile)`): set `historyPromise` to `null`; on success
with non-empty content prepend it to the in-memory history and move the
cursor to the end. -/
def shellHistLoadResolve (w : World) (p : Nat) : World :=
  match w.find p with
  | none => w
  | some π =>
    match π.vars.lookup "HIST_FILE" with
    | none => w -- no read was started
    | some hf =>
      match w.store.lookup hf with
      | some content =>
        let w := updShell w p (fun s => { s with historyPromise := .null })
        if content = "" then w
        else
          w.updF p (fun q =>
            let h := splitChars (fun c => c == '\n') content ++ q.history
            { q with history := h, historyIndex := h.length })
      | none => updShell w p (fun s => { s with historyPromise := .null })

/-- The externally triggerable operations: the public process methods,
the terminal key handlers, and the promise resolutions. -/
inductive Op where
  | exec (p : Nat) (args : List String)
  | write (p : Nat) (content : Output)
  | eof (p : Nat)
  | intr (p : Nat)
  | exit (p : Nat) (code : Int)
  | ctrlC (t : Nat)
  | ctrlD (t : Nat)
  | profileResolve (p : Nat)
  | scriptResolve (p : Nat)
  | histLoadResolve (p : Nat)
  | histWriteResolve (p : Nat)

def applyOp (fuel : Nat) (w : World) : Op → World
  | .exec p a => execute fuel w p a
  | .write p c => (writeP fuel w p c).2
  | .eof p => eofP fuel w p
  | .intr p => interruptP fuel w p
  | .exit p code => exitP fuel w p code
  | .ctrlC t => termCtrlC fuel w t
  | .ctrlD t => termCtrlD fuel w t
  | .profileResolve p => shellProfileResolve fuel w p
  | .scriptResolve p => shellScriptResolve fuel w p
  | .histLoadResolve p => shellHistLoadResolve w p
  | .histWriteResolve p => shellHistWriteResolve w p

/-- Apply a sequence of operations. -/
def run (fuel : Nat) (ops : List Op) (w : World) : World :=
  ops.foldl (applyOp fuel) w

/-! ## The booted system

`term = new Term(); term.execute([Shell]);` — the world after the `Term`
constructor (which also constructs and executes the `TermError` child,
leaving `term.stdout` temporarily pointing at it) and before
`term.execute`. -/

def termProc : Proc :=
  { inputEnabled := true, tty := true, stdin := 0, stdout := 1, stderr := 1,
    job := [0], children := [1], parent := none, kind := .term {} }

def termErrProc : Proc :=
  { inputEnabled := true, tty := true, stdin := 0, stdout := 0, stderr := 1,
    job := [1], parent := some 0, state := .running, kind := .termError }

def bootPre : World :=
  { procs := [(0, termProc), (1, termErrProc)], nextPid := 2 }

/-- The interactive system right after start-up with an empty store: the
terminal and error sink are running, the shell (pid 2) has executed, and
the missing `.profile` read has resolved (greeting printed, input
enabled, `loaded` set). -/
def boot (fuel : Nat) : World :=
  shellProfileResolve fuel (execute fuel bootPre 0 []) 2

/-- Terminal output pane contents, flattened to strings. -/
def termOutputs (w : World) (t : Nat) : List String :=
  match w.find t with
  | some π =>
    match π.kind with
    | .term ts => ts.outputs.map Output.str
    | _ => []
  | none => []

/-- Shell variable lookup (`variables.get`). -/
def getVar (w : World) (p : Nat) (k : String) : Option String :=
  ((w.find p).map Proc.vars).getD [] |>.lookup k

/-! ## Evolution invariants

`Evol w w'` relates a world to any world the runtime can step it to:
processes are never removed, `state` ranks and `inputEnded` only grow,
the log is append-only, and an `eofDelivered p` event is appended exactly
when `p`'s `inputEnded` flips — which gives at-most-once EOF delivery. -/

theorem lookup_map_updKey (l : List (Nat × Proc)) (p q : Nat) (f : Proc → Proc) :
    (l.map (fun e => (e.1, if e.1 = p then f e.2 else e.2))).lookup q =
      if q = p then (l.lookup q).map f else l.lookup q := by
  induction l with
  | nil => simp [List.lookup]
  | cons e rest ih =>
    obtain ⟨k, pr⟩ := e
    simp only [List.map_cons, List.lookup]
    by_cases hq : q = k
    · have hbeq : (q == k) = true := beq_iff_eq.mpr hq
      simp only [hbeq]
      by_cases hk : k = p
      · rw [if_pos hk, if_pos (hq.trans hk)]
        rfl
      · rw [if_neg hk, if_neg (fun h => hk (hq.symm.trans h))]
    · have hbeq : (q == k) = false := by simp [hq]
      simp only [hbeq]
      exact ih

theorem World.find_updF (w : World) (p : Nat) (f : Proc → Proc) (q : Nat) :
    (w.updF p f).find q = if q = p then (w.find q).map f else w.find q := by
  unfold World.updF World.find
  exact lookup_map_updKey w.procs p q f

theorem lookup_append_of_isSome (l l' : List (Nat × Proc)) (q : Nat)
    (h : (l.lookup q).isSome) : (l ++ l').lookup q = l.lookup q := by
  induction l with
  | nil => simp [List.lookup] at h
  | cons e rest ih =>
    obtain ⟨k, pr⟩ := e
    by_cases hq : q = k
    · have hbeq : (q == k) = true := beq_iff_eq.mpr hq
      simp [List.lookup, hbeq]
    · have hbeq : (q == k) = false := by simp [hq]
      simp only [List.lookup, hbeq, List.cons_append] at *
      exact ih h

theorem World.find_alloc (w : World) (π : Proc) (q : Nat) (h : (w.find q).isSome) :
    (w.alloc π).1.find q = w.find q :=
  lookup_append_of_isSome w.procs [(w.nextPid, π)] q h

theorem eofCount_append (l l' : List Event) (p : Nat) :
    eofCount (l ++ l') p = eofCount l p + eofCount l' p :=
  List.countP_append _ _ _

theorem eofCount_single_ne (e : Event) (p : Nat) (h : e ≠ .eofDelivered p) :
    eofCount [e] p = 0 := by
  simp [eofCount, List.countP, List.countP.go, h]

theorem eofCount_single_self (p : Nat) : eofCount [.eofDelivered p] p = 1 := by
  simp [eofCount, List.countP, List.countP.go]

/-- The evolution relation: what every runtime step preserves.
Processes are never removed, lifecycle state ranks and `inputEnded` only
grow, the log is append-only, and the count of `eofDelivered p` events
grows exactly with `p`'s `inputEnded` flip. -/
structure Evol (w w' : World) : Prop where
  mono : ∀ p π, w.find p = some π → ∃ π', w'.find p = some π' ∧
      stateRank π.state ≤ stateRank π'.state ∧
      (π.inputEnded = true → π'.inputEnded = true) ∧
      eofCount w'.log p + π.inputEnded.toNat
        = eofCount w.log p + π'.inputEnded.toNat
  logExt : ∃ l, w'.log = w.log ++ l

theorem Evol.refl (w : World) : Evol w w :=
  ⟨fun p π h => ⟨π, h, le_refl _, fun h' => h', rfl⟩, ⟨[], by simp⟩⟩

theorem Evol.trans {w1 w2 w3 : World} (a : Evol w1 w2) (b : Evol w2 w3) :
    Evol w1 w3 := by
  refine ⟨fun p π h => ?_, ?_⟩
  · obtain ⟨π2, h2, r12, e12, c12⟩ := a.mono p π h
    obtain ⟨π3, h3, r23, e23, c23⟩ := b.mono p π2 h2
    exact ⟨π3, h3, le_trans r12 r23, fun h' => e23 (e12 h'), by omega⟩
  · obtain ⟨l1, h1⟩ := a.logExt
    obtain ⟨l2, h2⟩ := b.logExt
    exact ⟨l1 ++ l2, by simp [h2, h1]⟩

/-- Frame update: a field update that touches neither `state` nor
`inputEnded` evolves the world. -/
theorem evol_updF {w : World} {p : Nat} {f : Proc → Proc}
    (hs : ∀ π, (f π).state = π.state)
    (he : ∀ π, (f π).inputEnded = π.inputEnded) :
    Evol w (w.updF p f) := by
  refine ⟨fun q π h => ?_, ⟨[], by simp [World.updF]⟩⟩
  by_cases hq : q = p
  · subst hq
    refine ⟨f π, ?_, le_of_eq (by rw [hs]), fun h' => by rw [he]; exact h', ?_⟩
    · rw [World.find_updF, if_pos rfl, h]
      rfl
    · show eofCount w.log q + π.inputEnded.toNat = eofCount w.log q + (f π).inputEnded.toNat
      rw [he]
  · refine ⟨π, ?_, le_refl _, fun h' => h', rfl⟩
    rw [World.find_updF, if_neg hq]
    exact h

/-- Appending a non-EOF event evolves the world. -/
theorem evol_logE {w : World} {e : Event} (h : ∀ q, e ≠ .eofDelivered q) :
    Evol w (w.logE e) := by
  refine ⟨fun q π hf => ?_, ⟨[e], rfl⟩⟩
  refine ⟨π, hf, le_refl _, fun h' => h', ?_⟩
  show eofCount (w.log ++ [e]) q + _ = _
  rw [eofCount_append, eofCount_single_ne e q (h q)]
  omega

/-- Allocation evolves the world. -/
theorem evol_alloc (w : World) (π : Proc) : Evol w (w.alloc π).1 := by
  refine ⟨fun q πq h => ?_, ⟨[], by simp [World.alloc]⟩⟩
  rw [World.find_alloc w π q (by simp [h])]
  exact ⟨πq, h, le_refl _, fun h' => h', rfl⟩

/-- Store mutations evolve the world. -/
theorem evol_setStore (w : World) (k v : String) : Evol w (w.setStore k v) :=
  ⟨fun q π h => ⟨π, h, le_refl _, fun h' => h', rfl⟩, ⟨[], by simp [World.setStore]⟩⟩

theorem evol_removeStore (w : World) (k : String) : Evol w (w.removeStore k) :=
  ⟨fun q π h => ⟨π, h, le_refl _, fun h' => h', rfl⟩, ⟨[], by simp [World.removeStore]⟩⟩

/-- The effective-`eof` mark: set `inputEnded` and log the delivery. -/
theorem evol_eofMark {w : World} {p : Nat} {π : Proc}
    (hf : w.find p = some π) (he : π.inputEnded = false) :
    Evol w ((w.updF p (fun q => { q with inputEnded := true })).logE (.eofDelivered p)) := by
  refine ⟨fun q πq h => ?_, ⟨[.eofDelivered p], rfl⟩⟩
  by_cases hq : q = p
  · subst hq
    have hπ : πq = π := by rw [hf] at h; injection h with hv; exact hv.symm
    refine ⟨{ πq with inputEnded := true }, ?_, le_refl _, by simp, ?_⟩
    · show (w.updF q (fun r => { r with inputEnded := true })).find q = _
      rw [World.find_updF, if_pos rfl, h]
      rfl
    · show eofCount (w.log ++ [.eofDelivered q]) q + πq.inputEnded.toNat
        = eofCount w.log q + _
      rw [eofCount_append, eofCount_single_self, hπ, he]
      simp
  · refine ⟨πq, ?_, le_refl _, fun h' => h', ?_⟩
    · show (w.updF p (fun r => { r with inputEnded := true })).find q = _
      rw [World.find_updF, if_neg hq]
      exact h
    · show eofCount (w.log ++ [.eofDelivered p]) q + πq.inputEnded.toNat
        = eofCount w.log q + πq.inputEnded.toNat
      rw [eofCount_append, eofCount_single_ne _ _ (by simp [Ne.symm hq])]
      omega

/-- The effective-`execute` mark: READY to RUNNING, record args, log. -/
theorem evol_execMark {w : World} {p : Nat} {π : Proc}
    (hf : w.find p = some π) (hs : π.state = .ready) (args : List String) :
    Evol w ((w.updF p (fun q => { q with state := .running, args := args })).logE
      (.execStart p)) := by
  have h1 : Evol w (w.updF p (fun q => { q with state := .running, args := args })) := by
    refine ⟨fun q πq h => ?_, ⟨[], by simp [World.updF]⟩⟩
    by_cases hq : q = p
    · subst hq
      have hπ : πq = π := by rw [hf] at h; injection h with hv; exact hv.symm
      refine ⟨{ πq with state := .running, args := args }, ?_, ?_, fun h' => h', rfl⟩
      · rw [World.find_updF, if_pos rfl, h]
        rfl
      · show stateRank πq.state ≤ stateRank .running
        rw [hπ, hs]
        simp [stateRank]
    · refine ⟨πq, ?_, le_refl _, fun h' => h', rfl⟩
      rw [World.find_updF, if_neg hq]
      exact h
  exact h1.trans (evol_logE (by intro q hc; cases hc))

/-- The effective-`exit` mark: RUNNING to TERMINATED, clear
`inputEnabled`, log. -/
theorem evol_exitMark {w : World} {p : Nat} {π : Proc}
    (hf : w.find p = some π) (hs : π.state = .running) (code : Int) :
    Evol w ((w.updF p (fun q =>
      { q with state := .terminated, inputEnabled := false })).logE (.exited p code)) := by
  have h1 : Evol w (w.updF p (fun q =>
      { q with state := .terminated, inputEnabled := false })) := by
    refine ⟨fun q πq h => ?_, ⟨[], by simp [World.updF]⟩⟩
    by_cases hq : q = p
    · subst hq
      have hπ : πq = π := by rw [hf] at h; injection h with hv; exact hv.symm
      refine ⟨{ πq with state := .terminated, inputEnabled := false }, ?_, ?_,
        fun h' => h', rfl⟩
      · rw [World.find_updF, if_pos rfl, h]
        rfl
      · show stateRank πq.state ≤ stateRank .terminated
        cases πq.state <;> simp [stateRank]
    · refine ⟨πq, ?_, le_refl _, fun h' => h', rfl⟩
      rw [World.find_updF, if_neg hq]
      exact h
  exact h1.trans (evol_logE (by intro q hc; cases hc))

/-- Folding an evolving step evolves. -/
theorem evol_foldl {α : Type} {f : World → α → World}
    (hf : ∀ w a, Evol w (f w a)) (l : List α) (w : World) :
    Evol w (l.foldl f w) := by
  induction l generalizing w with
  | nil => exact Evol.refl w
  | cons a rest ih => exact (hf w a).trans (ih (f w a))

theorem evol_updateInputM (w : World) (p : Nat) : Evol w (updateInputM w p) :=
  evol_logE (by intro q h; cases h)

theorem evol_setReturnCode (w : World) (p : Nat) (code : Int) :
    Evol w (setReturnCode w p code) :=
  evol_updF (fun _ => rfl) (fun _ => rfl)

theorem evol_updShell (w : World) (p : Nat) (f : ShellState → ShellState) :
    Evol w (updShell w p f) :=
  evol_updF (fun _ => rfl) (fun _ => rfl)

/-! Target-directed composition combinators: peel the outermost world
transformer off the goal. -/

theorem Evol.updF_right {w w' : World} (a : Evol w w') {p : Nat} {f : Proc → Proc}
    (hs : ∀ π, (f π).state = π.state) (he : ∀ π, (f π).inputEnded = π.inputEnded) :
    Evol w (w'.updF p f) := a.trans (evol_updF hs he)

theorem Evol.logE_right {w w' : World} (a : Evol w w') {e : Event}
    (h : ∀ q, e ≠ .eofDelivered q) : Evol w (w'.logE e) := a.trans (evol_logE h)

theorem Evol.alloc_right {w w' : World} (a : Evol w w') (π : Proc) :
    Evol w ((w'.alloc π).1) := a.trans (evol_alloc w' π)

theorem Evol.setStore_right {w w' : World} (a : Evol w w') (k v : String) :
    Evol w (w'.setStore k v) := a.trans (evol_setStore w' k v)

theorem Evol.removeStore_right {w w' : World} (a : Evol w w') (k : String) :
    Evol w (w'.removeStore k) := a.trans (evol_removeStore w' k)

theorem Evol.updateInput_right {w w' : World} (a : Evol w w') (p : Nat) :
    Evol w (updateInputM w' p) := a.trans (evol_updateInputM w' p)

theorem Evol.updShell_right {w w' : World} (a : Evol w w') (p : Nat)
    (f : ShellState → ShellState) : Evol w (updShell w' p f) :=
  a.trans (evol_updShell w' p f)

theorem Evol.setReturnCode_right {w w' : World} (a : Evol w w') (p : Nat) (code : Int) :
    Evol w (setReturnCode w' p code) := a.trans (evol_setReturnCode w' p code)

theorem evol_clearInputM (w : World) (t : Nat) : Evol w (clearInputM w t) := by
  unfold clearInputM
  split
  · split
    · dsimp only
      exact ((Evol.refl _).updF_right (by intro x; rfl) (by intro x; rfl)).updF_right
        (by intro x; rfl) (by intro x; rfl)
    · exact Evol.refl w
  · exact Evol.refl w

theorem evol_clearHistoryM (w : World) (t : Nat) : Evol w (clearHistoryM w t) := by
  unfold clearHistoryM
  split
  · split
    · exact evol_updF (fun _ => rfl) (fun _ => rfl)
    · exact Evol.refl w
  · exact Evol.refl w

theorem evol_wirePipeline (w : World) (ps : List Nat) : Evol w (wirePipeline w ps) := by
  unfold wirePipeline
  refine evol_foldl (fun w i => ?_) _ w
  dsimp only
  split
  · exact Evol.refl _
  · split <;> split <;>
      first
        | exact (((Evol.refl _).updF_right (by intro x; rfl) (by intro x; rfl)).updF_right
            (by intro x; rfl) (by intro x; rfl)).updF_right (by intro x; rfl) (by intro x; rfl)
        | exact ((Evol.refl _).updF_right (by intro x; rfl) (by intro x; rfl)).updF_right
            (by intro x; rfl) (by intro x; rfl)
        | exact (Evol.refl _).updF_right (by intro x; rfl) (by intro x; rfl)

theorem evol_shellHistWriteResolve (w : World) (p : Nat) :
    Evol w (shellHistWriteResolve w p) := by
  unfold shellHistWriteResolve
  split
  · split
    · split
      · exact evol_updShell _ _ _
      · exact Evol.refl w
    · exact Evol.refl w
  · exact Evol.refl w

theorem evol_shellHistLoadResolve (w : World) (p : Nat) :
    Evol w (shellHistLoadResolve w p) := by
  unfold shellHistLoadResolve
  split
  · exact Evol.refl w
  · split
    · exact Evol.refl w
    · split
      · split
        · exact evol_updShell _ _ _
        · exact (evol_updShell _ _ _).trans (evol_updF (fun _ => rfl) (fun _ => rfl))
      · exact evol_updShell _ _ _

/-! ## Every runtime step evolves the world

One step lemma per interpreter function at fuel `n + 1`, assuming the
property for all functions at fuel `n`; then the main induction. -/

section EvolStep

variable {n : Nat}

theorem evol_eofP_succ
    (ihEOF : ∀ w p, Evol w (dispatchOnEOF n w p)) :
    ∀ w p, Evol w (eofP (n + 1) w p) := by
  intro w p
  simp only [eofP, interp, interpStep]
  split
  · exact Evol.refl w
  · rename_i π hfind
    split
    · exact Evol.refl w
    · rename_i hg
      have he : π.inputEnded = false := by
        rcases h : π.inputEnded with _ | _
        · rfl
        · exact absurd (Or.inr h) hg
      exact (evol_eofMark hfind he).trans (ihEOF _ _)

theorem evol_interruptP_succ
    (ihOI : ∀ w p, Evol w (dispatchOnInterrupt n w p)) :
    ∀ w p, Evol w (interruptP (n + 1) w p) := by
  intro w p
  simp only [interruptP, interp, interpStep]
  split
  · exact Evol.refl w
  · split
    · exact Evol.refl w
    · exact ihOI _ _

theorem evol_writeP_succ
    (ihOW : ∀ w p c, Evol w (dispatchOnWrite n w p c).2) :
    ∀ w p c, Evol w (writeP (n + 1) w p c).2 := by
  intro w p c
  simp only [writeP, interp, interpStep]
  split
  · exact Evol.refl w
  · split
    · exact Evol.refl w
    · exact (evol_logE (by intro q h; cases h)).trans (ihOW _ _ _)

theorem evol_defaultOnInterrupt_succ
    (ihIntr : ∀ w p, Evol w (interruptP n w p))
    (ihExit : ∀ w p c, Evol w (exitP n w p c)) :
    ∀ w p, Evol w (defaultOnInterrupt (n + 1) w p) := by
  intro w p
  simp only [defaultOnInterrupt, interp, interpStep]
  split
  · exact Evol.refl w
  · split
    · exact (ihIntr _ _).trans (ihExit _ _ _)
    · exact ihExit _ _ _

theorem evol_dispatchOnInterrupt_succ
    (ihDI : ∀ w p, Evol w (defaultOnInterrupt n w p)) :
    ∀ w p, Evol w (dispatchOnInterrupt (n + 1) w p) := by
  intro w p
  simp only [dispatchOnInterrupt, interp, interpStep]
  split
  · exact Evol.refl w
  · split
    · split
      · exact Evol.refl w
      · exact ihDI _ _
    · exact (evol_updF (by intro x; rfl) (by intro x; rfl)).trans (ihDI _ _)
    · exact (evol_updF (by intro x; rfl) (by intro x; rfl)).trans (ihDI _ _)
    · exact ihDI _ _

theorem evol_dispatchOnEOF_succ
    (ihExit : ∀ w p c, Evol w (exitP n w p c))
    (ihW : ∀ w p c, Evol w (writeP n w p c).2) :
    ∀ w p, Evol w (dispatchOnEOF (n + 1) w p) := by
  intro w p
  simp only [dispatchOnEOF, interp, interpStep]
  split
  · exact Evol.refl w
  · split
    · exact Evol.refl w
    · exact Evol.refl w
    · exact ihExit _ _ _
    · exact (ihW _ _ _).trans (ihExit _ _ _)
    · exact ihExit _ _ _
    · split
      · exact ihExit _ _ _
      · exact Evol.refl w

theorem evol_shellQueueJob_succ
    (ihW : ∀ w p c, Evol w (writeP n w p c).2) :
    ∀ w p s, Evol w (shellQueueJob (n + 1) w p s) := by
  intro w p s
  simp only [shellQueueJob, interp, interpStep]
  split
  · exact Evol.refl w
  · split
    · refine Evol.trans ?_ (evol_setReturnCode _ _ _)
      split
      · exact ihW _ _ _
      · exact Evol.refl w
    · exact evol_updShell _ _ _

theorem evol_shellCreateProcess_succ
    (ihW : ∀ w p c, Evol w (writeP n w p c).2) :
    ∀ w p s, Evol w (shellCreateProcess (n + 1) w p s).2 := by
  intro w p s
  simp only [shellCreateProcess, interp, interpStep]
  split
  · exact Evol.refl w
  · split
    · exact evol_alloc _ _
    · exact ihW _ _ _

theorem evol_launchPipeline_succ
    (ihExec : ∀ w p a, Evol w (execute n w p a)) :
    ∀ w p ps argss, Evol w (launchPipeline (n + 1) w p ps argss) := by
  intro w p ps argss
  simp only [launchPipeline, interp, interpStep]
  exact evol_foldl (fun w pa => ihExec _ _ _) _ w

theorem evol_shellExecuteCommand_succ
    (ihQ : ∀ w p s, Evol w (shellQueueJob n w p s))
    (ihN : ∀ w p, Evol w (shellNextJob n w p)) :
    ∀ w p s, Evol w (shellExecuteCommand (n + 1) w p s) := by
  intro w p s
  simp only [shellExecuteCommand, interp, interpStep]
  exact (evol_foldl (fun w line => ihQ _ _ _) _ w).trans (ihN _ _)

theorem evol_shellProfileResolve_succ
    (ihW : ∀ w p c, Evol w (writeP n w p c).2)
    (ihEC : ∀ w p s, Evol w (shellExecuteCommand n w p s)) :
    ∀ w p, Evol w (shellProfileResolve (n + 1) w p) := by
  intro w p
  simp only [shellProfileResolve, interp, interpStep]
  split
  · exact Evol.refl w
  · split
    · split
      · exact (evol_updF (by intro x; rfl) (by intro x; rfl)).trans (ihEC _ _ _)
      · exact ((((ihW _ _ _).updF_right (by intro x; rfl)
          (by intro x; rfl)).updShell_right _ _).updateInput_right _)
    · exact Evol.refl w

theorem evol_shellScriptResolve_succ
    (ihW : ∀ w p c, Evol w (writeP n w p c).2)
    (ihEC : ∀ w p s, Evol w (shellExecuteCommand n w p s))
    (ihExit : ∀ w p c, Evol w (exitP n w p c)) :
    ∀ w p, Evol w (shellScriptResolve (n + 1) w p) := by
  intro w p
  simp only [shellScriptResolve, interp, interpStep]
  split
  · exact Evol.refl w
  · split
    · split
      · split
        · exact (evol_updF (by intro x; rfl) (by intro x; rfl)).trans (ihEC _ _ _)
        · exact (ihW _ _ _).trans (ihExit _ _ _)
      · exact Evol.refl w
    · exact Evol.refl w

theorem evol_termCtrlC_succ
    (ihIntr : ∀ w p, Evol w (interruptP n w p)) :
    ∀ w t, Evol w (termCtrlC (n + 1) w t) := by
  intro w t
  simp only [termCtrlC, interp, interpStep]
  split
  · exact Evol.refl w
  · split
    · split
      · exact Evol.refl w
      · split
        · exact Evol.refl w
        · exact (((evol_clearInputM w _).trans
            (evol_foldl (fun w q => ihIntr _ _) _ _)).updateInput_right _)
    · exact Evol.refl w

theorem evol_termCtrlD_succ
    (ihW : ∀ w p c, Evol w (writeP n w p c).2)
    (ihEof : ∀ w p, Evol w (eofP n w p)) :
    ∀ w t, Evol w (termCtrlD (n + 1) w t) := by
  intro w t
  simp only [termCtrlD, interp, interpStep]
  split
  · exact Evol.refl w
  · split
    · split
      · exact Evol.refl w
      · split
        · exact Evol.refl w
        · split
          · exact evol_updateInputM _ _
          · refine Evol.trans (Evol.trans ?_ (ihEof _ _)) (evol_updateInputM _ _)
            split
            · exact ihW _ _ _
            · exact Evol.refl w
    · exact Evol.refl w

theorem evol_foldl_pair {α β : Type} {f : (World × β) → α → (World × β)}
    (hf : ∀ wb a, Evol wb.1 (f wb a).1) (l : List α) (wb : World × β) :
    Evol wb.1 (l.foldl f wb).1 := by
  induction l generalizing wb with
  | nil => exact Evol.refl _
  | cons a rest ih => exact (hf wb a).trans (ih (f wb a))

theorem evol_dispatchOnReturn_succ
    (ihW : ∀ w p c, Evol w (writeP n w p c).2)
    (ihSOR : ∀ w p c k, Evol w (shellOnReturn n w p c k)) :
    ∀ w p c k, Evol w (dispatchOnReturn (n + 1) w p c k) := by
  intro w p c k
  simp only [dispatchOnReturn, interp, interpStep]
  split
  · exact Evol.refl w
  · split
    · exact (ihW _ _ _).updF_right (by intro x; rfl) (by intro x; rfl)
    · exact ihSOR _ _ _ _
    · exact Evol.refl w

theorem evol_shellOnReturn_succ
    (ihN : ∀ w p, Evol w (shellNextJob n w p))
    (ihExit : ∀ w p c, Evol w (exitP n w p c)) :
    ∀ w p child code, Evol w (shellOnReturn (n + 1) w p child code) := by
  intro w p child code
  simp only [shellOnReturn, interp, interpStep]
  repeat
    first
    | exact Evol.refl _
    | exact evol_setReturnCode _ _ _
    | refine Evol.updateInput_right ?_ _
    | refine Evol.updShell_right ?_ _ _
    | refine Evol.setReturnCode_right ?_ _ _
    | refine Evol.trans ?_ (ihExit _ _ _)
    | refine Evol.trans ?_ (ihN _ _)
    | split

theorem evol_shellNextJob_succ
    (ihC : ∀ w p s, Evol w (shellCreateProcess n w p s).2)
    (ihL : ∀ w p ps argss, Evol w (launchPipeline n w p ps argss)) :
    ∀ w p, Evol w (shellNextJob (n + 1) w p) := by
  intro w p
  simp only [shellNextJob, interp, interpStep]
  repeat
    first
    | exact Evol.refl _
    | dsimp only
    | refine Evol.updateInput_right ?_ _
    | refine Evol.updShell_right ?_ _ _
    | refine Evol.setReturnCode_right ?_ _ _
    | refine Evol.trans ?_ (ihL _ _ _ _)
    | refine Evol.trans ?_ (evol_wirePipeline _ _)
    | refine Evol.trans ?_ (evol_foldl_pair (fun wb a => ihC _ _ _) _ _)
    | split

theorem evol_dispatchOnWrite_succ
    (ihW : ∀ w p c, Evol w (writeP n w p c).2)
    (ihExit : ∀ w p c, Evol w (exitP n w p c))
    (ihEC : ∀ w p s, Evol w (shellExecuteCommand n w p s)) :
    ∀ w p c, Evol w (dispatchOnWrite (n + 1) w p c).2 := by
  intro w p c
  simp only [dispatchOnWrite, interp, interpStep]
  repeat
    first
    | exact Evol.refl _
    | dsimp only
    | refine Evol.updF_right ?_ (by intro x; rfl) (by intro x; rfl)
    | refine Evol.updShell_right ?_ _ _
    | refine Evol.setStore_right ?_ _ _
    | refine Evol.trans ?_ (ihW _ _ _)
    | refine Evol.trans ?_ (ihExit _ _ _)
    | refine Evol.trans ?_ (ihEC _ _ _)
    | split

set_option maxRecDepth 4000 in
theorem evol_dispatchOnExecute_succ
    (ihExec : ∀ w p a, Evol w (execute n w p a))
    (ihW : ∀ w p c, Evol w (writeP n w p c).2)
    (ihExit : ∀ w p c, Evol w (exitP n w p c)) :
    ∀ w p, Evol w (dispatchOnExecute (n + 1) w p).2 := by
  intro w p
  simp only [dispatchOnExecute, interp, interpStep]
  repeat
    first
    | exact Evol.refl _
    | dsimp only
    | refine Evol.updF_right ?_ (by intro x; rfl) (by intro x; rfl)
    | refine Evol.updShell_right ?_ _ _
    | refine Evol.setStore_right ?_ _ _
    | refine Evol.removeStore_right ?_ _
    | refine Evol.alloc_right ?_ _
    | refine Evol.updateInput_right ?_ _
    | refine Evol.trans ?_ (ihExec _ _ _)
    | refine Evol.trans ?_ (ihW _ _ _)
    | refine Evol.trans ?_ (ihExit _ _ _)
    | refine Evol.trans ?_ (evol_clearHistoryM _ _)
    | refine Evol.trans ?_ (evol_foldl (fun w a => evol_removeStore w a) _ _)
    | split

set_option maxRecDepth 8000 in
theorem evol_exitP_succ
    (ihExit : ∀ w p c, Evol w (exitP n w p c))
    (ihEof : ∀ w p, Evol w (eofP n w p))
    (ihRet : ∀ w p c k, Evol w (dispatchOnReturn n w p c k)) :
    ∀ w p c, Evol w (exitP (n + 1) w p c) := by
  intro w p c
  simp only [exitP, interp, interpStep]
  split
  · exact Evol.refl _
  · rename_i π hfind
    split
    · exact Evol.refl _
    · rename_i hg
      have hst : π.state = .running := not_not.mp hg
      repeat
        first
        | exact (evol_exitMark hfind hst c).trans
            (evol_foldl (fun w q => ihExit w q 0) _ _)
        | dsimp only
        | refine Evol.updF_right ?_ (by intro x; rfl) (by intro x; rfl)
        | refine Evol.updateInput_right ?_ _
        | refine Evol.trans ?_ (ihEof _ _)
        | refine Evol.trans ?_ (ihRet _ _ _ _)
        | split

theorem evol_execute_succ
    (ihDOE : ∀ w p, Evol w (dispatchOnExecute n w p).2)
    (ihEof : ∀ w p, Evol w (eofP n w p))
    (ihExit : ∀ w p c, Evol w (exitP n w p c)) :
    ∀ w p a, Evol w (execute (n + 1) w p a) := by
  intro w p a
  simp only [execute, interp, interpStep]
  split
  · exact Evol.refl _
  · rename_i π hfind
    split
    · exact Evol.refl _
    · rename_i hg
      have hst : π.state = .ready := not_not.mp hg
      refine Evol.trans (evol_execMark hfind hst a) ?_
      repeat
        first
        | exact Evol.refl _
        | dsimp only
        | refine Evol.updF_right ?_ (by intro x; rfl) (by intro x; rfl)
        | refine Evol.trans ?_ (ihDOE _ _)
        | refine Evol.trans ?_ (ihEof _ _)
        | refine Evol.trans ?_ (ihExit _ _ _)
        | split

end EvolStep

/-- The conjunction of the evolution property for every interpreter
function at a given fuel. -/
def EvolAll (fuel : Nat) : Prop :=
  (∀ w p a, Evol w (execute fuel w p a)) ∧
  (∀ w p, Evol w (eofP fuel w p)) ∧
  (∀ w p, Evol w (interruptP fuel w p)) ∧
  (∀ w p c, Evol w (exitP fuel w p c)) ∧
  (∀ w p c, Evol w (writeP fuel w p c).2) ∧
  (∀ w p, Evol w (dispatchOnExecute fuel w p).2) ∧
  (∀ w p c, Evol w (dispatchOnWrite fuel w p c).2) ∧
  (∀ w p, Evol w (dispatchOnEOF fuel w p)) ∧
  (∀ w p, Evol w (defaultOnInterrupt fuel w p)) ∧
  (∀ w p, Evol w (dispatchOnInterrupt fuel w p)) ∧
  (∀ w p c k, Evol w (dispatchOnReturn fuel w p c k)) ∧
  (∀ w p c k, Evol w (shellOnReturn fuel w p c k)) ∧
  (∀ w p s, Evol w (shellExecuteCommand fuel w p s)) ∧
  (∀ w p s, Evol w (shellQueueJob fuel w p s)) ∧
  (∀ w p, Evol w (shellNextJob fuel w p)) ∧
  (∀ w p s, Evol w (shellCreateProcess fuel w p s).2) ∧
  (∀ w p ps argss, Evol w (launchPipeline fuel w p ps argss)) ∧
  (∀ w p, Evol w (shellProfileResolve fuel w p)) ∧
  (∀ w p, Evol w (shellScriptResolve fuel w p)) ∧
  (∀ w t, Evol w (termCtrlC fuel w t)) ∧
  (∀ w t, Evol w (termCtrlD fuel w t))

/-- Every interpreter function, at every fuel, evolves the world. -/
theorem evolAll : ∀ fuel, EvolAll fuel := by
  intro fuel
  induction fuel with
  | zero =>
    exact ⟨fun w _ _ => Evol.refl w, fun w _ => Evol.refl w, fun w _ => Evol.refl w,
      fun w _ _ => Evol.refl w, fun w _ _ => Evol.refl w, fun w _ => Evol.refl w,
      fun w _ _ => Evol.refl w, fun w _ => Evol.refl w, fun w _ => Evol.refl w,
      fun w _ => Evol.refl w, fun w _ _ _ => Evol.refl w, fun w _ _ _ => Evol.refl w,
      fun w _ _ => Evol.refl w, fun w _ _ => Evol.refl w, fun w _ => Evol.refl w,
      fun w _ _ => Evol.refl w, fun w _ _ _ => Evol.refl w, fun w _ => Evol.refl w,
      fun w _ => Evol.refl w, fun w _ => Evol.refl w, fun w _ => Evol.refl w⟩
  | succ n ih =>
    obtain ⟨hE, hEof, hI, hX, hW, hDOE, hDOW, hDEOF, hDI0, hDI, hDR, hSOR, hEC,
      hQ, hN, hC, hL, hPR, hSR, hCC, hCD⟩ := ih
    exact ⟨evol_execute_succ hDOE hEof hX,
      evol_eofP_succ hDEOF,
      evol_interruptP_succ hDI,
      evol_exitP_succ hX hEof hDR,
      evol_writeP_succ hDOW,
      evol_dispatchOnExecute_succ hE hW hX,
      evol_dispatchOnWrite_succ hW hX hEC,
      evol_dispatchOnEOF_succ hX hW,
      evol_defaultOnInterrupt_succ hI hX,
      evol_dispatchOnInterrupt_succ hDI0,
      evol_dispatchOnReturn_succ hW hSOR,
      evol_shellOnReturn_succ hN hX,
      evol_shellExecuteCommand_succ hQ hN,
      evol_shellQueueJob_succ hW,
      evol_shellNextJob_succ hC hL,
      evol_shellCreateProcess_succ hW,
      evol_launchPipeline_succ hE,
      evol_shellProfileResolve_succ hW hEC,
      evol_shellScriptResolve_succ hW hEC hX,
      evol_termCtrlC_succ hI,
      evol_termCtrlD_succ hW hEof⟩

/-- Every externally triggerable operation evolves the world. -/
theorem evol_applyOp (fuel : Nat) (w : World) (op : Op) :
    Evol w (applyOp fuel w op) := by
  obtain ⟨hE, hEof, hI, hX, hW, hDOE, hDOW, hDEOF, hDI0, hDI, hDR, hSOR, hEC,
    hQ, hN, hC, hL, hPR, hSR, hCC, hCD⟩ := evolAll fuel
  cases op with
  | exec p a => exact hE w p a
  | write p c => exact hW w p c
  | eof p => exact hEof w p
  | intr p => exact hI w p
  | exit p code => exact hX w p code
  | ctrlC t => exact hCC w t
  | ctrlD t => exact hCD w t
  | profileResolve p => exact hPR w p
  | scriptResolve p => exact hSR w p
  | histLoadResolve p => exact evol_shellHistLoadResolve w p
  | histWriteResolve p => exact evol_shellHistWriteResolve w p

/-- Any sequence of operations evolves the world. -/
theorem evol_run (fuel : Nat) (ops : List Op) (w : World) :
    Evol w (run fuel ops w) :=
  evol_foldl (fun w op => evol_applyOp fuel w op) ops w

/-! ## Lifecycle corollaries -/

/-- `execute` on a non-READY process changes nothing. -/
theorem execute_noop (n : Nat) (w : World) (p : Nat) (π : Proc) (a : List String)
    (hfind : w.find p = some π) (hst : π.state ≠ .ready) :
    execute n w p a = w := by
  cases n with
  | zero => rfl
  | succ n =>
    simp only [execute, interp, interpStep, hfind]
    rw [if_pos hst]

/-- `exit` on a non-RUNNING process changes nothing. -/
theorem exit_noop (n : Nat) (w : World) (p : Nat) (π : Proc) (c : Int)
    (hfind : w.find p = some π) (hst : π.state ≠ .running) :
    exitP n w p c = w := by
  cases n with
  | zero => rfl
  | succ n =>
    simp only [exitP, interp, interpStep, hfind]
    rw [if_pos hst]

/-- `eof` on a process that is not RUNNING, or whose input already ended,
changes nothing. -/
theorem eof_noop (n : Nat) (w : World) (p : Nat) (π : Proc)
    (hfind : w.find p = some π) (hg : π.state ≠ .running ∨ π.inputEnded = true) :
    eofP n w p = w := by
  cases n with
  | zero => rfl
  | succ n =>
    simp only [eofP, interp, interpStep, hfind]
    rw [if_pos hg]

/-- `write` to a process that is not RUNNING or whose input is disabled
returns `false` and changes nothing. -/
theorem write_noop (n : Nat) (w : World) (p : Nat) (π : Proc) (c : Output)
    (hfind : w.find p = some π) (hg : π.state ≠ .running ∨ π.inputEnabled = false) :
    writeP n w p c = (false, w) := by
  cases n with
  | zero => rfl
  | succ n =>
    simp only [writeP, interp, interpStep, hfind]
    rw [if_pos hg]

/-- An effective `write` logs the invocation and runs the `onWrite`
hook. -/
theorem write_invokes (n : Nat) (w : World) (p : Nat) (π : Proc) (c : Output)
    (hfind : w.find p = some π) (hr : π.state = .running) (he : π.inputEnabled = true) :
    writeP (n + 1) w p c = dispatchOnWrite n (w.logE (.onWriteInvoked p)) p c := by
  simp only [writeP, interp, interpStep, hfind]
  rw [if_neg (by simp [hr, he])]
  rfl

/-- An effective `eof` sets `inputEnded` (and logs the delivery) before
running the `onEOF` hook. -/
theorem eof_invokes (n : Nat) (w : World) (p : Nat) (π : Proc)
    (hfind : w.find p = some π) (hr : π.state = .running) (he : π.inputEnded = false) :
    eofP (n + 1) w p = dispatchOnEOF n
      ((w.updF p (fun q => { q with inputEnded := true })).logE (.eofDelivered p)) p := by
  simp only [eofP, interp, interpStep, hfind]
  rw [if_neg (by simp [hr, he])]
  rfl

set_option maxRecDepth 8000 in
/-- After an effective `execute` the process is present and no longer
READY. -/
theorem execute_effective_rank (n : Nat) (w : World) (p : Nat) (π : Proc) (a : List String)
    (hfind : w.find p = some π) (hst : π.state = .ready) :
    ∃ π', (execute (n + 1) w p a).find p = some π' ∧ 1 ≤ stateRank π'.state := by
  obtain ⟨hE, hEof, hI, hX, hW, hDOE, hDOW, hDEOF, hDI0, hDI, hDR, hSOR, hEC,
    hQ, hN, hC, hL, hPR, hSR, hCC, hCD⟩ := evolAll n
  simp only [execute, interp, interpStep, hfind]
  rw [if_neg (by simp [hst])]
  have hmark : ((w.updF p (fun q => { q with state := .running, args := a })).logE
      (.execStart p)).find p = some { π with state := .running, args := a } := by
    show (w.updF p (fun q => { q with state := .running, args := a })).find p = _
    rw [World.find_updF, if_pos rfl, hfind]
    rfl
  have hev : Evol ((w.updF p (fun q => { q with state := .running, args := a })).logE
      (.execStart p)) (execute (n + 1) w p a) := by
    simp only [execute, interp, interpStep, hfind]
    rw [if_neg (by simp [hst])]
    repeat
      first
      | exact Evol.refl _
      | dsimp only
      | refine Evol.updF_right ?_ (by intro x; rfl) (by intro x; rfl)
      | refine Evol.trans ?_ (hDOE _ _)
      | refine Evol.trans ?_ (hEof _ _)
      | refine Evol.trans ?_ (hX _ _ _)
      | split
  obtain ⟨π', hfind', hrank, _, _⟩ := hev.mono p _ hmark
  refine ⟨π', ?_, ?_⟩
  · rw [← hfind']
    congr 1
    simp only [execute, interp, interpStep, hfind]
    rw [if_neg (by simp [hst])]
  · simpa [stateRank] using hrank

set_option maxRecDepth 8000 in
/-- After an effective `exit` the process is present and TERMINATED. -/
theorem exit_effective_state (n : Nat) (w : World) (p : Nat) (π : Proc) (c : Int)
    (hfind : w.find p = some π) (hst : π.state = .running) :
    ∃ π', (exitP (n + 1) w p c).find p = some π' ∧ π'.state = .terminated := by
  obtain ⟨hE, hEof, hI, hX, hW, hDOE, hDOW, hDEOF, hDI0, hDI, hDR, hSOR, hEC,
    hQ, hN, hC, hL, hPR, hSR, hCC, hCD⟩ := evolAll n
  have hmark : ((w.updF p (fun q =>
      { q with state := .terminated, inputEnabled := false })).logE
      (.exited p c)).find p = some { π with state := .terminated, inputEnabled := false } := by
    show (w.updF p (fun q =>
      { q with state := .terminated, inputEnabled := false })).find p = _
    rw [World.find_updF, if_pos rfl, hfind]
    rfl
  have hev : Evol ((w.updF p (fun q =>
      { q with state := .terminated, inputEnabled := false })).logE
      (.exited p c)) (exitP (n + 1) w p c) := by
    simp only [exitP, interp, interpStep, hfind]
    rw [if_neg (by simp [hst])]
    repeat
      first
      | exact Evol.refl _
      | dsimp only
      | refine Evol.trans ?_ (evol_foldl (fun w q => hX w q 0) _ _)
      | refine Evol.updF_right ?_ (by intro x; rfl) (by intro x; rfl)
      | refine Evol.updateInput_right ?_ _
      | refine Evol.trans ?_ (hEof _ _)
      | refine Evol.trans ?_ (hDR _ _ _ _)
      | split
  obtain ⟨π', hfind', hrank, _, _⟩ := hev.mono p _ hmark
  refine ⟨π', hfind', ?_⟩
  have h2 : 2 ≤ stateRank π'.state := by simpa [stateRank] using hrank
  cases hs : π'.state <;> simp [hs, stateRank] at h2 ⊢

/-- After an effective `eof` the process is present with `inputEnded`. -/
theorem eof_effective_ended (n : Nat) (w : World) (p : Nat) (π : Proc)
    (hfind : w.find p = some π) (hst : π.state = .running) (he : π.inputEnded = false) :
    ∃ π', (eofP (n + 1) w p).find p = some π' ∧ π'.inputEnded = true := by
  obtain ⟨hE, hEof, hI, hX, hW, hDOE, hDOW, hDEOF, hDI0, hDI, hDR, hSOR, hEC,
    hQ, hN, hC, hL, hPR, hSR, hCC, hCD⟩ := evolAll n
  have hmark : ((w.updF p (fun q => { q with inputEnded := true })).logE
      (.eofDelivered p)).find p = some { π with inputEnded := true } := by
    show (w.updF p (fun q => { q with inputEnded := true })).find p = _
    rw [World.find_updF, if_pos rfl, hfind]
    rfl
  have hev : Evol ((w.updF p (fun q => { q with inputEnded := true })).logE
      (.eofDelivered p)) (eofP (n + 1) w p) := by
    rw [eof_invokes n w p π hfind hst he]
    exact hDEOF _ _
  obtain ⟨π', hfind', _, hended, _⟩ := hev.mono p _ hmark
  exact ⟨π', hfind', hended rfl⟩

theorem rank_pos_ne_ready {s : PState} (h : 1 ≤ stateRank s) : s ≠ .ready := by
  cases s <;> simp [stateRank] at *

theorem guard_of_not_and_run {s : PState} {b : Bool}
    (h : ¬(s = .running ∧ b = true)) : s ≠ .running ∨ b = false := by
  by_cases hs : s = .running
  · cases hb : b
    · exact Or.inr rfl
    · exact absurd ⟨hs, hb⟩ h
  · exact Or.inl hs

theorem guard_of_not_and_unended {s : PState} {b : Bool}
    (h : ¬(s = .running ∧ b = false)) : s ≠ .running ∨ b = true := by
  by_cases hs : s = .running
  · cases hb : b
    · exact absurd ⟨hs, hb⟩ h
    · exact Or.inr rfl
  · exact Or.inl hs

/-- C1: For every process p, `execute` is effective at most once and
`exit` is effective at most once: `execute` transitions p from READY to
RUNNING and is a no-op whenever `p.state` is not READY; `exit`
transitions p from RUNNING to TERMINATED and is a no-op whenever
`p.state` is not RUNNING; hence `p.state` moves monotonically along
READY, RUNNING, TERMINATED (under any sequence of runtime operations)
and repeated calls to `execute` or `exit` leave the state (indeed the
whole world) unchanged. -/
theorem C1_execute_exit_at_most_once
    (n m fuel : Nat) (w : World) (p : Nat) (π : Proc) (a a' : List String)
    (c c' : Int) (ops : List Op)
    (hfind : w.find p = some π) :
    (π.state ≠ .ready → execute n w p a = w) ∧
    (π.state ≠ .running → exitP n w p c = w) ∧
    (∃ π', (run fuel ops w).find p = some π' ∧
      stateRank π.state ≤ stateRank π'.state) ∧
    (π.state = .ready → ∃ π', (execute (n + 1) w p a).find p = some π' ∧
      1 ≤ stateRank π'.state) ∧
    (π.state = .running → ∃ π', (exitP (n + 1) w p c).find p = some π' ∧
      π'.state = .terminated) ∧
    (execute m (execute (n + 1) w p a) p a' = execute (n + 1) w p a) ∧
    (exitP m (exitP (n + 1) w p c) p c' = exitP (n + 1) w p c) := by
  refine ⟨fun hst => execute_noop n w p π a hfind hst,
    fun hst => exit_noop n w p π c hfind hst,
    ?_, fun hst => execute_effective_rank n w p π a hfind hst,
    fun hst => exit_effective_state n w p π c hfind hst, ?_, ?_⟩
  · obtain ⟨π', h', hrank, _, _⟩ := (evol_run fuel ops w).mono p π hfind
    exact ⟨π', h', hrank⟩
  · by_cases hst : π.state = .ready
    · obtain ⟨π', h', hrank⟩ := execute_effective_rank n w p π a hfind hst
      exact execute_noop m _ p π' a' h' (rank_pos_ne_ready hrank)
    · rw [execute_noop (n + 1) w p π a hfind hst]
      exact execute_noop m w p π a' hfind hst
  · by_cases hst : π.state = .running
    · obtain ⟨π', h', hterm⟩ := exit_effective_state n w p π c hfind hst
      refine exit_noop m _ p π' c' h' ?_
      rw [hterm]
      simp
    · rw [exit_noop (n + 1) w p π c hfind hst]
      exact exit_noop m w p π c' hfind hst

/-- A tiny concrete world for witnesses: a running terminal (0), the
error sink (1) and a running, input-enabled generic foreground process
(2), plus a READY process (3) and a RUNNING one (4) used as scratch. -/
def wEx : World :=
  { procs := [
      (0, { termProc with state := .running, stdout := 2, children := [1, 2] }),
      (1, termErrProc),
      (2, { parent := some 0, job := [2], stdin := 0, stdout := 0, stderr := 1,
            state := .running, inputEnabled := true }),
      (3, { parent := some 0, job := [3], stdin := 0, stdout := 0, stderr := 1,
            state := .ready }),
      (4, { parent := some 0, job := [4], stdin := 0, stdout := 0, stderr := 1,
            state := .terminated })],
    nextPid := 5 }

theorem C1_witness :
    execute 4 wEx 4 [] = wEx ∧ exitP 4 wEx 4 0 = wEx := by
  constructor
  · exact (C1_execute_exit_at_most_once 4 0 0 wEx 4 _ [] [] 0 0 [] rfl).1
      (by decide)
  · exact (C1_execute_exit_at_most_once 4 0 0 wEx 4 _ [] [] 0 0 [] rfl).2.1
      (by decide)

/-- C4: For every process p and payload c, `p.write(c)` invokes the
input handler `onWrite(c)` if and only if `p.state = RUNNING` and
`p.inputEnabled`; otherwise the payload is silently dropped, no state of
p changes (the world is unchanged), and `write` returns `false` — in
particular a write to a TERMINATED process is dropped and never
propagated. -/
theorem C4_write_gate (n : Nat) (w : World) (p : Nat) (π : Proc) (c : Output)
    (hfind : w.find p = some π) :
    (¬(π.state = .running ∧ π.inputEnabled = true) →
       writeP n w p c = (false, w)) ∧
    (π.state = .running → π.inputEnabled = true →
       writeP (n + 1) w p c = dispatchOnWrite n (w.logE (.onWriteInvoked p)) p c) := by
  constructor
  · intro h
    exact write_noop n w p π c hfind (guard_of_not_and_run h)
  · intro hr he
    exact write_invokes n w p π c hfind hr he

theorem C4_witness :
    writeP 4 wEx 4 (.text "hi") = (false, wEx) ∧
    writeP 4 wEx 2 (.text "hi") =
      dispatchOnWrite 3 (wEx.logE (.onWriteInvoked 2)) 2 (.text "hi") := by
  constructor
  · exact (C4_write_gate 4 wEx 4 _ (.text "hi") rfl).1 (by decide)
  · exact (C4_write_gate 3 wEx 2 _ (.text "hi") rfl).2 (by decide) (by decide)

/-- C5: For every process p, the `onEOF` hook runs at most once over p's
lifetime: `eof()` is a no-op unless `p.state = RUNNING` and
`p.inputEnded` is false; an effective call sets `inputEnded` before
invoking `onEOF`; hence `eof()` is idempotent, and along any sequence of
runtime operations (upstream exits, Ctrl-D events, …) p receives EOF at
most once. -/
theorem C5_eof_at_most_once
    (n m fuel : Nat) (w : World) (p : Nat) (π : Proc) (ops : List Op)
    (hfind : w.find p = some π) :
    (¬(π.state = .running ∧ π.inputEnded = false) → eofP n w p = w) ∧
    (π.state = .running → π.inputEnded = false →
       eofP (n + 1) w p = dispatchOnEOF n
         ((w.updF p (fun q => { q with inputEnded := true })).logE (.eofDelivered p)) p ∧
       ((w.updF p (fun q => { q with inputEnded := true })).find p).map
         Proc.inputEnded = some true) ∧
    (eofP m (eofP (n + 1) w p) p = eofP (n + 1) w p) ∧
    (π.inputEnded = false → eofCount w.log p = 0 →
       eofCount (run fuel ops w).log p ≤ 1) := by
  refine ⟨?_, ?_, ?_, ?_⟩
  · intro h
    exact eof_noop n w p π hfind (guard_of_not_and_unended h)
  · intro hr he
    refine ⟨eof_invokes n w p π hfind hr he, ?_⟩
    rw [World.find_updF, if_pos rfl, hfind]
    rfl
  · by_cases hg : π.state = .running ∧ π.inputEnded = false
    · obtain ⟨π', h', hend⟩ := eof_effective_ended n w p π hfind hg.1 hg.2
      exact eof_noop m _ p π' h' (Or.inr hend)
    · rw [eof_noop (n + 1) w p π hfind (guard_of_not_and_unended hg)]
      exact eof_noop m w p π hfind (guard_of_not_and_unended hg)
  · intro he hc
    obtain ⟨π', h', _, _, hcount⟩ := (evol_run fuel ops w).mono p π hfind
    rw [he, hc] at hcount
    have : π'.inputEnded.toNat ≤ 1 := by cases π'.inputEnded <;> simp
    omega

theorem C5_witness :
    eofP 4 wEx 4 = wEx ∧
    eofCount (run 4 [Op.eof 2, Op.eof 2, Op.ctrlD 0] wEx).log 2 ≤ 1 := by
  constructor
  · exact (C5_eof_at_most_once 4 0 0 wEx 4 _ [] rfl).1 (by decide)
  · exact (C5_eof_at_most_once 0 0 4 wEx 2 _ [Op.eof 2, Op.eof 2, Op.ctrlD 0]
      rfl).2.2.2 (by decide) (by decide)


set_option maxRecDepth 10000

/-! ## C2: pipeline wiring and launch order -/

/-- The per-index body of the `wirePipeline` fold, named for the wiring
induction. -/
def wireStep (ps : List Nat) (w : World) (i : Nat) : World :=
  match ps.get? i with
  | none => w
  | some q =>
    let w := w.updF q (fun π => { π with job := ps })
    let w := match (if 0 < i then ps.get? (i - 1) else none) with
      | some prev => w.updF q (fun π => { π with stdin := prev })
      | none => w
    match ps.get? (i + 1) with
    | some nxt => w.updF q (fun π => { π with stdout := nxt })
    | none => w

theorem wirePipeline_eq_foldl (w : World) (ps : List Nat) :
    wirePipeline w ps = (List.range ps.length).foldl (wireStep ps) w := rfl

theorem wireStep_find_ne (ps : List Nat) (w : World) (i q : Nat)
    (h : ps.get? i ≠ some q) : (wireStep ps w i).find q = w.find q := by
  unfold wireStep
  cases hg : ps.get? i with
  | none => rfl
  | some q0 =>
    have hq0 : q0 ≠ q := fun he => h (he ▸ hg)
    dsimp only
    cases h1 : (if 0 < i then ps.get? (i - 1) else none) with
    | none =>
      cases h2 : ps.get? (i + 1) with
      | none => simp [World.find_updF, Ne.symm hq0]
      | some nxt => simp [World.find_updF, Ne.symm hq0]
    | some prev =>
      cases h2 : ps.get? (i + 1) with
      | none => simp [World.find_updF, Ne.symm hq0]
      | some nxt => simp [World.find_updF, Ne.symm hq0]

theorem wireFold_find_ne (ps : List Nat) (l : List Nat) (w : World) (q : Nat)
    (h : ∀ i ∈ l, ps.get? i ≠ some q) :
    (l.foldl (wireStep ps) w).find q = w.find q := by
  induction l generalizing w with
  | nil => rfl
  | cons a t ih =>
    rw [List.foldl_cons, ih _ (fun i hi => h i (List.mem_cons_of_mem a hi)),
      wireStep_find_ne ps w a q (h a (List.mem_cons_self a t))]

/-- The record produced for stage `i` by the wiring loop. -/
def wiredProc (ps : List Nat) (i : Nat) (π : Proc) : Proc :=
  { π with
      job := ps,
      stdin := (match (if 0 < i then ps.get? (i - 1) else none) with
        | some prev => prev
        | none => π.stdin),
      stdout := (match ps.get? (i + 1) with
        | some nxt => nxt
        | none => π.stdout) }

theorem wireStep_find_self (ps : List Nat) (w : World) (i q : Nat)
    (hg : ps.get? i = some q) (π : Proc) (hfind : w.find q = some π) :
    (wireStep ps w i).find q = some (wiredProc ps i π) := by
  unfold wireStep wiredProc
  rw [hg]
  dsimp only
  cases h1 : (if 0 < i then ps.get? (i - 1) else none) with
  | none =>
    cases h2 : ps.get? (i + 1) with
    | none => simp [World.find_updF, hfind, h1, h2]
    | some nxt => simp [World.find_updF, hfind, h1, h2]
  | some prev =>
    cases h2 : ps.get? (i + 1) with
    | none => simp [World.find_updF, hfind, h1, h2]
    | some nxt => simp [World.find_updF, hfind, h1, h2]

theorem wireFold_range_find (ps : List Nat) (hnd : ps.Nodup) (w : World)
    (i : Nat) (hi : i < ps.length) (π : Proc)
    (hfind : w.find (ps.get ⟨i, hi⟩) = some π) :
    ∀ m, i < m → m ≤ ps.length →
      ((List.range m).foldl (wireStep ps) w).find (ps.get ⟨i, hi⟩) =
        some (wiredProc ps i π) := by
  intro m
  induction m with
  | zero => omega
  | succ m ih =>
    intro him hm
    rw [List.range_succ, List.foldl_append, List.foldl_cons, List.foldl_nil]
    by_cases hcase : i = m
    · subst hcase
      have huntouched : ((List.range i).foldl (wireStep ps) w).find
          (ps.get ⟨i, hi⟩) = some π := by
        rw [wireFold_find_ne ps (List.range i) w _ ?_, hfind]
        intro j hj hcontra
        have hjlt : j < i := List.mem_range.mp hj
        have hjlen : j < ps.length := by omega
        rw [List.get?_eq_get hjlen] at hcontra
        have hg : ps.get ⟨j, hjlen⟩ = ps.get ⟨i, hi⟩ := by
          injection hcontra
        have hji : j = i := Fin.mk_eq_mk.mp ((List.Nodup.get_inj_iff hnd).mp hg)
        omega
      exact wireStep_find_self ps _ i _ (List.get?_eq_get hi) π huntouched
    · have him' : i < m := by omega
      rw [wireStep_find_ne ps _ m _ ?_, ih him' (by omega)]
      intro hcontra
      have hmlen : m < ps.length := by omega
      rw [List.get?_eq_get hmlen] at hcontra
      have hg : ps.get ⟨m, hmlen⟩ = ps.get ⟨i, hi⟩ := by injection hcontra
      have hmi : m = i := Fin.mk_eq_mk.mp ((List.Nodup.get_inj_iff hnd).mp hg)
      omega

/-- `Event.execStart` discriminator, to observe launch order in the log. -/
def isExecStart : Event → Bool
  | .execStart _ => true
  | _ => false

/-- A shell world with the three-stage job `echo a | cat | tail 1` already
queued, ready for `nextJob`. -/
def c2w : World :=
  { procs := [
      (0, { termProc with state := .running, stdout := 2, children := [1, 2] }),
      (1, termErrProc),
      (2, { parent := some 0, job := [2], stdin := 0, stdout := 0, stderr := 1,
            state := .running, inputEnabled := true, prompt := "$ ",
            vars := [("?", "0")],
            kind := .shell { loaded := true,
                             jobs := [[["echo", "a"], ["cat"], ["tail", "1"]]] } })],
    nextPid := 3 }

/-- The same shell with the nested job `echo cat f | sh` queued. -/
def c2xw : World :=
  { procs := [
      (0, { termProc with state := .running, stdout := 2, children := [1, 2] }),
      (1, termErrProc),
      (2, { parent := some 0, job := [2], stdin := 0, stdout := 0, stderr := 1,
            state := .running, inputEnabled := true, prompt := "$ ",
            vars := [("?", "0")],
            kind := .shell { loaded := true,
                             jobs := [[["echo", "cat", "f"], ["sh"]]] } })],
    nextPid := 3 }

/-- C2: the wiring loop of `Shell.nextJob` gives every stage the whole
pipeline as `job`, each interior stage the previous stage as `stdin` and
the next stage as `stdout`, while the leftmost keeps its constructor
`stdin` and the rightmost its constructor `stdout` (both the shell's, set
by `Program.constructor`); and the launch loop executes the stages in
right-to-left order (observed on the queued job `echo a | cat | tail 1`:
the `execStart` events appear for pids 5, 4, 3 in that order).  The
original claim additionally asserts that the wiring still holds after the
launches; that part is refuted by `C2_counterexample`. -/
theorem C2_pipeline_wiring (w : World) (ps : List Nat) (hnd : ps.Nodup)
    (i : Nat) (hi : i < ps.length) (π : Proc)
    (hfind : w.find (ps.get ⟨i, hi⟩) = some π) :
    (∃ π', (wirePipeline w ps).find (ps.get ⟨i, hi⟩) = some π' ∧
      π'.job = ps ∧
      (∀ h : i + 1 < ps.length, π'.stdout = ps.get ⟨i + 1, h⟩) ∧
      (∀ _ : 0 < i, π'.stdin = ps.get ⟨i - 1, by omega⟩) ∧
      (i = 0 → π'.stdin = π.stdin) ∧
      (i = ps.length - 1 → π'.stdout = π.stdout)) ∧
    ((shellNextJob 16 c2w 2).log.filter (fun e => isExecStart e)) =
      [.execStart 5, .execStart 4, .execStart 3] := by
  constructor
  · refine ⟨wiredProc ps i π, ?_, ?_, ?_, ?_, ?_, ?_⟩
    · rw [wirePipeline_eq_foldl]
      exact wireFold_range_find ps hnd w i hi π hfind ps.length hi (le_refl _)
    · rfl
    · intro h
      show (match ps.get? (i + 1) with
        | some nxt => nxt
        | none => π.stdout) = _
      rw [List.get?_eq_get h]
    · intro h
      show (match (if 0 < i then ps.get? (i - 1) else none) with
        | some prev => prev
        | none => π.stdin) = _
      rw [if_pos h, List.get?_eq_get (by omega)]
    · intro h
      subst h
      show (match (if 0 < 0 then ps.get? (0 - 1) else none) with
        | some prev => prev
        | none => π.stdin) = _
      rfl
    · intro h
      have hnone : ps.get? (i + 1) = none := by
        rw [List.get?_eq_none]
        omega
      show (match ps.get? (i + 1) with
        | some nxt => nxt
        | none => π.stdout) = _
      rw [hnone]
  · decide

theorem C2_witness :
    ∃ π', (wirePipeline c2w [0, 1]).find 0 = some π' ∧ π'.job = [0, 1] := by
  obtain ⟨π', h1, h2, -⟩ :=
    (C2_pipeline_wiring c2w [0, 1] (by decide) 0 (by decide) _ rfl).1
  exact ⟨π', h1, h2⟩

/-- C2 counterexample: running the queued job `echo cat f | sh` through
`nextJob` leaves stage 0 (`echo`, pid 3) of the job `[3, 4]` with
`stdout = 5` — the `cat` process spawned by the inner shell — instead of
its pipeline successor 4: `Program.execute`'s foreground grab
(`this.stdin.stdout = this`) rewires the outer pipeline when the inner
shell launches a process whose `stdin` is `echo`. -/
theorem C2_counterexample :
    ((shellNextJob 16 c2xw 2).find 3).map (fun π => (π.job, π.stdout)) =
      some ([3, 4], 5) ∧
    (5 : Nat) ≠ 4 := by
  refine ⟨by decide, by decide⟩

/-! ## C3: the tail-of-pipeline EOF flush is dead code -/

/-- A shell (pid 2) with the two-stage job `[4, 3]` in flight: the
upstream stage 4 has TERMINATED, the downstream stage 3 is RUNNING with
`stdin = 4`. -/
def c3w : World :=
  { procs := [
      (0, { termProc with state := .running, stdout := 3, children := [1, 2] }),
      (1, termErrProc),
      (2, { parent := some 0, job := [2], stdin := 0, stdout := 0, stderr := 1,
            state := .running, prompt := "$ ", vars := [("?", "0")],
            children := [3, 4],
            kind := .shell { loaded := true, jobRunning := true } }),
      (3, { parent := some 2, job := [4, 3], stdin := 4, stdout := 0, stderr := 1,
            state := .running, inputEnabled := true }),
      (4, { parent := some 2, job := [4, 3], stdin := 0, stdout := 3, stderr := 1,
            state := .terminated })],
    nextPid := 5 }

/-- C3: when the downstream stage 3 exits while its upstream 4 is already
TERMINATED, the code restores the foreground to the parent (the terminal's
`stdout` becomes the shell 2), repaints (`updateInput`), removes 3 from
the parent's children and notifies the RUNNING parent via `onReturn`
(observable as `?` becoming the exit code) — but, contrary to the claim,
no EOF is ever delivered to 3 itself (`eofCount` stays 0 and `inputEnded`
stays `false`): the flush `if (input.state === TERMINATED) this.eof()` is
dead code (see the doc comment of `exitP`). -/
theorem C3_exit_tail_flush_dead :
    eofCount (exitP 8 c3w 3 7).log 3 = 0 ∧
    ((exitP 8 c3w 3 7).find 3).map Proc.inputEnded = some false ∧
    (exitP 8 c3w 3 7).stateOf 3 = some .terminated ∧
    ((exitP 8 c3w 3 7).find 0).map Proc.stdout = some 2 ∧
    Event.updateInputCalled 0 ∈ (exitP 8 c3w 3 7).log ∧
    ((exitP 8 c3w 3 7).find 2).map Proc.children = some [4] ∧
    getVar (exitP 8 c3w 3 7) 2 "?" = some "7" := by
  refine ⟨by decide, by decide, by decide, by decide, by decide, by decide, by decide⟩

/-! ## C6: the invalid-pipe guard is dead code -/

theorem map_tokens_ne_nil (l : List String) :
    (l.map jsTrimSplitWs).any (fun e => e.length = 0) = false := by
  induction l with
  | nil => rfl
  | cons a t ih =>
    simp only [List.map_cons, List.any_cons, ih, Bool.or_false]
    have h := jsTrimSplitWs_ne_nil a
    simp [List.length_eq_zero, h]

/-- An idle interactive shell (no queued jobs), for running single
command lines. -/
def c6w : World :=
  { procs := [
      (0, { termProc with state := .running, stdout := 2, children := [1, 2] }),
      (1, termErrProc),
      (2, { parent := some 0, job := [2], stdin := 0, stdout := 0, stderr := 1,
            state := .running, inputEnabled := true, prompt := "$ ",
            vars := [("?", "0")],
            kind := .shell { loaded := true } })],
    nextPid := 3 }

/-- C6: `Shell.queueJob` can never take its invalid-pipe branch — every
stage token list comes from `e.trim().split(/\s+/)`, which never has
length 0 (`''.split(/\s+/)` is `['']`) — so a line with an empty stage
such as `echo a | | echo b` is queued as a job whose empty stage becomes
`createProcess('')`: the shell reports `sh: command not found: ` on
stderr and sets `?` to 127, not `sh: invalid pipe` with return code 1 as
the claim states. -/
theorem C6_invalid_pipe_guard_dead (fuel : Nat) (w : World) (p : Nat) (str : String) :
    (shellQueueJob (fuel + 1) w p str =
      if strTrim str = "" then w
      else updShell w p (fun s => { s with jobs := s.jobs ++
        [(splitChars (fun c => c == '|') str).map jsTrimSplitWs] })) ∧
    getVar (writeTextM 12 c6w 2 "echo a | | echo b") 2 "?" = some "127" ∧
    termOutputs (writeTextM 12 c6w 2 "echo a | | echo b") 0 =
      ["<span class=\"error\">sh: command not found: </span>"] := by
  refine ⟨?_, by decide, by decide⟩
  show (shellQueueJob (fuel + 1) w p str = _)
  simp only [shellQueueJob, interp, interpStep]
  split
  · rfl
  · rw [map_tokens_ne_nil]
    rfl

/-! ## C7: the history-size default is an absolute slice index -/

/-- An idle shell that has loaded one history entry, with
`HIST_FILE=.hist` set and the history promise idle (`null`), so the next
accepted line schedules a history write. -/
def c7w : World :=
  { procs := [
      (0, { termProc with state := .running, stdout := 2, children := [1, 2] }),
      (1, termErrProc),
      (2, { parent := some 0, job := [2], stdin := 0, stdout := 0, stderr := 1,
            state := .running, inputEnabled := true, prompt := "$ ",
            history := ["echo a"],
            vars := [("?", "0"), ("HIST_FILE", ".hist")],
            kind := .shell { loaded := true, historyPromise := .null } })],
    nextPid := 3 }

/-- `c7w` with two history entries and `HIST_SIZE=2` (the spec's own
example configuration). -/
def c7w2 : World :=
  { procs := [
      (0, { termProc with state := .running, stdout := 2, children := [1, 2] }),
      (1, termErrProc),
      (2, { parent := some 0, job := [2], stdin := 0, stdout := 0, stderr := 1,
            state := .running, inputEnabled := true, prompt := "$ ",
            history := ["echo a", "echo b"],
            vars := [("?", "0"), ("HIST_FILE", ".hist"), ("HIST_SIZE", "2")],
            kind := .shell { loaded := true, historyPromise := .null } })],
    nextPid := 3 }

/-- `c7w2` with `HIST_SIZE=1`: the one configuration of these where the
subtraction is a positive number and the write holds the intended
entries. -/
def c7w3 : World :=
  { procs := [
      (0, { termProc with state := .running, stdout := 2, children := [1, 2] }),
      (1, termErrProc),
      (2, { parent := some 0, job := [2], stdin := 0, stdout := 0, stderr := 1,
            state := .running, inputEnabled := true, prompt := "$ ",
            history := ["echo a", "echo b"],
            vars := [("?", "0"), ("HIST_FILE", ".hist"), ("HIST_SIZE", "1")],
            kind := .shell { loaded := true, historyPromise := .null } })],
    nextPid := 3 }

/-- Read the shell's `historyPromise` slot. -/
def shellHistP (w : World) (p : Nat) : Option HistP :=
  match w.find p with
  | some π =>
    match π.kind with
    | .shell ss => some ss.historyPromise
    | _ => none
  | none => none

/-- C7: the scheduled history write does not hold the last `HIST_SIZE`
(default 100) entries.  `this.history.slice(this.history.length -
Number.parseInt(HIST_SIZE) || 100)` parses as `(length - parseInt(...))
|| 100`, so whenever the subtraction is `NaN` (HIST_SIZE unset) or `0`
(history length equal to HIST_SIZE) the slice starts at the absolute
index 100: with one entry and no HIST_SIZE the write is `""` (spec: the
last 100 entries, i.e. `"echo a"`), and with two entries and
`HIST_SIZE=2` it is `""` as well (spec: `"echo a\necho b"`).  Only the
single-flight discipline is as specified: the slot moves to in-flight
and a second accepted line schedules no further write while it is. -/
theorem C7_history_write_bug :
    (writeTextM 6 c7w 2 " ").store.lookup ".hist" = some "" ∧
    shellHistP (writeTextM 6 c7w 2 " ") 2 = some .inFlight ∧
    (writeTextM 6 c7w2 2 " ").store.lookup ".hist" = some "" ∧
    (writeTextM 6 c7w3 2 " ").store.lookup ".hist" = some "echo b" ∧
    (writeTextM 6 ((writeTextM 6 c7w 2 " ").setStore ".hist" "X") 2 " ").store.lookup
      ".hist" = some "X" := by
  refine ⟨by decide, by decide, by decide, by decide, by decide⟩

/-! ## C8: tail ring buffer -/

theorem suffix_append_both {α : Type} {l₁ l₂ : List α} (t : List α)
    (h : l₁ <:+ l₂) : l₁ ++ t <:+ l₂ ++ t := by
  obtain ⟨s, hs⟩ := h
  exact ⟨s, by rw [← List.append_assoc, hs]⟩

theorem tailAccum_ring (c : Int) (hc : 0 < c) (acc xs : List Output)
    (hacc : (acc.length : Int) ≤ c) :
    ((tailAccum c acc xs).length : Int) ≤ c ∧
    tailAccum c acc xs <:+ acc ++ xs := by
  induction xs generalizing acc with
  | nil =>
    simpa [tailAccum] using hacc
  | cons x t ih =>
    have hstep : tailAccum c acc (x :: t) = tailAccum c (tailPush c acc x) t := rfl
    have hlen : ((tailPush c acc x).length : Int) ≤ c := by
      unfold tailPush
      by_cases h : (acc.length : Int) = c
      · rw [if_pos h]
        simp only [List.length_append, List.length_drop, List.length_cons,
          List.length_nil]
        omega
      · rw [if_neg h]
        simp only [List.length_append, List.length_cons, List.length_nil]
        omega
    obtain ⟨h1, h2⟩ := ih (tailPush c acc x) hlen
    refine ⟨hstep ▸ h1, ?_⟩
    rw [hstep]
    refine h2.trans ?_
    unfold tailPush
    by_cases h : (acc.length : Int) = c
    · rw [if_pos h]
      have : acc.drop 1 ++ ([x] ++ t) <:+ acc ++ ([x] ++ t) :=
        suffix_append_both ([x] ++ t) (List.drop_suffix 1 acc)
      simpa using this
    · rw [if_neg h]
      simp

/-- A terminal with a READY `tail` process (pid 3) as its foreground. -/
def c8w : World :=
  { procs := [
      (0, { termProc with state := .running, stdout := 3, children := [1, 2] }),
      (1, termErrProc),
      (2, { parent := some 0, job := [2], stdin := 0, stdout := 0, stderr := 1,
            state := .running, prompt := "$ ", vars := [("?", "0")], children := [3],
            kind := .shell { loaded := true, jobRunning := true } }),
      (3, { parent := some 2, job := [3], stdin := 0, stdout := 0, stderr := 1,
            kind := .tail none [] })],
    nextPid := 4 }

/-- Execute `tail 3`, write the five Text payloads, deliver EOF. -/
def c8ops : List Op :=
  [.exec 3 ["3"], .write 3 (.text "1"), .write 3 (.text "2"), .write 3 (.text "3"),
   .write 3 (.text "4"), .write 3 (.text "5"), .eof 3]

/-- The terminal's output pane as raw payloads. -/
def termPane (w : World) (t : Nat) : List Output :=
  match w.find t with
  | some π =>
    match π.kind with
    | .term ts => ts.outputs
    | _ => []
  | none => []

/-- Array-payload discriminator. -/
def isArrO : Output → Bool
  | .arr _ _ => true
  | _ => false

/-- C8: `tail N` keeps a ring buffer of at most the `N` most recent items
(a suffix of everything written, evicting the oldest on overflow), and in
the concrete scenario — `tail 3` fed Text `"1"` … `"5"` then EOF — it
performs exactly one downstream write, an Array payload whose `str()` is
`"3\n4\n5"`, emits nothing before the EOF, and exits with code 0. -/
theorem C8_tail_ring_and_scenario (c : Int) (acc xs : List Output)
    (hc : 0 < c) (hacc : (acc.length : Int) ≤ c) :
    (((tailAccum c acc xs).length : Int) ≤ c ∧
      tailAccum c acc xs <:+ acc ++ xs) ∧
    ((termPane (run 6 c8ops c8w) 0).map Output.str = ["3\n4\n5"] ∧
     (termPane (run 6 c8ops c8w) 0).map isArrO = [true] ∧
     (run 6 c8ops c8w).log.countP (fun e => e = Event.onWriteInvoked 0) = 1 ∧
     (run 6 (c8ops.take 6) c8w).log.countP (fun e => e = Event.onWriteInvoked 0) = 0 ∧
     Event.exited 3 0 ∈ (run 6 c8ops c8w).log ∧
     (run 6 c8ops c8w).stateOf 3 = some .terminated) := by
  refine ⟨tailAccum_ring c hc acc xs hacc,
    by decide, by decide, by decide, by decide, by decide, by decide⟩

theorem C8_witness :
    ((tailAccum 3 [] [Output.text "1"]).length : Int) ≤ 3 ∧
    tailAccum 3 [] [Output.text "1"] <:+ [] ++ [Output.text "1"] := by
  exact (C8_tail_ring_and_scenario 3 [] [Output.text "1"]
    (by decide) (by decide)).1

/-! ## C9: argument-error exit codes -/

/-- One READY process of each argument-error shape, plus the shell (pid
2) targeted by the `exit` special form. -/
def c9w : World :=
  { procs := [
      (1, termErrProc),
      (2, { job := [2], stdin := 0, stdout := 0, stderr := 1,
            state := .running, prompt := "$ ", vars := [("?", "0")],
            kind := .shell { loaded := true } }),
      (3, { job := [3], stdin := 0, stdout := 0, stderr := 1, args := ["x"],
            kind := .head none }),
      (4, { job := [4], stdin := 0, stdout := 0, stderr := 1, args := ["x"],
            kind := .tail none [] }),
      (5, { job := [5], stdin := 0, stdout := 0, stderr := 1, args := ["x"],
            kind := .sleep false }),
      (6, { job := [6], stdin := 0, stdout := 0, stderr := 1, args := [],
            kind := .move }),
      (7, { job := [7], stdin := 0, stdout := 0, stderr := 1, args := [],
            kind := .remove }),
      (8, { job := [8], stdin := 0, stdout := 0, stderr := 1, args := [],
            kind := .grep none false }),
      (9, { job := [9], stdin := 0, stdout := 0, stderr := 1, args := ["abc"],
            kind := .callerExit 2 })],
    nextPid := 10 }

/-- C9 (amended): every argument error writes its diagnostic to stderr
and returns exit code 1 — head/tail with a non-numeric count, sleep with
a non-numeric time, mv/rm with a missing operand — except `grep` with a
missing pattern, which returns 2, and the shell special form `exit` with
a non-numeric argument, which reports `numeric argument required` and
exits the shell with code 2.  (The original claim put grep in the
code-1 group; `C9_counterexample` refutes that.) -/
theorem C9_argument_errors (n : Nat) (w : World) (p sp : Nat) (π : Proc)
    (a : String) (co : Option Int) (itemsv : List Output)
    (pat : Option String) (m pend : Bool)
    (hfind : w.find p = some π) :
    (π.kind = .head co → jsParseInt π.args.head? = none →
       dispatchOnExecute (n + 1) w p =
         (some 1, writeTextM n w π.stderr "head: invalid number of items")) ∧
    (π.kind = .tail co itemsv → jsParseInt π.args.head? = none →
       dispatchOnExecute (n + 1) w p =
         (some 1, writeTextM n w π.stderr "tail: invalid number of items")) ∧
    (π.kind = .sleep pend → jsParseFloatIsNaN (π.args.headD "") = true →
       dispatchOnExecute (n + 1) w p =
         (some 1, writeTextM n w π.stderr "sleep: invalid time")) ∧
    (π.kind = .move → π.args.headD "" = "" →
       dispatchOnExecute (n + 1) w p =
         (some 1, writeTextM n w π.stderr "mv: missing file operand")) ∧
    (π.kind = .move → π.args.headD "" ≠ "" → (π.args.get? 1).getD "" = "" →
       dispatchOnExecute (n + 1) w p =
         (some 1, writeTextM n w π.stderr "mv: missing destination file operand")) ∧
    (π.kind = .remove → π.args = [] →
       dispatchOnExecute (n + 1) w p =
         (some 1, writeTextM n w π.stderr "rm: missing operand")) ∧
    (π.kind = .grep pat m → π.args.head? = none →
       dispatchOnExecute (n + 1) w p =
         (some 2, writeTextM n w π.stderr "grep: missing pattern")) ∧
    (π.kind = .callerExit sp → π.args.head? = some a → a ≠ "" →
       jsParseInt (some a) = none →
       dispatchOnExecute (n + 1) w p =
         (some 0, exitP n (writeTextM n w π.stderr
           ("sh: exit: " ++ a ++ ": numeric argument required")) sp 2)) := by
  refine ⟨?_, ?_, ?_, ?_, ?_, ?_, ?_, ?_⟩
  · intro hk h
    simp only [dispatchOnExecute, interp, interpStep, hfind, hk, h]
    rfl
  · intro hk h
    simp only [dispatchOnExecute, interp, interpStep, hfind, hk, h]
    rfl
  · intro hk h
    simp only [dispatchOnExecute, interp, interpStep, hfind, hk, h]
    rfl
  · intro hk h
    simp only [dispatchOnExecute, interp, interpStep, hfind, hk]
    rw [if_pos h]
    rfl
  · intro hk h1 h2
    simp only [dispatchOnExecute, interp, interpStep, hfind, hk]
    rw [if_neg h1, if_pos h2]
    rfl
  · intro hk h
    simp only [dispatchOnExecute, interp, interpStep, hfind, hk, h]
    rfl
  · intro hk h
    simp only [dispatchOnExecute, interp, interpStep, hfind, hk, h]
    rfl
  · intro hk hh hne hp
    have hD : π.args.headD "" = a := by
      rw [List.headD_eq_head?_getD, hh]
      rfl
    simp only [dispatchOnExecute, interp, interpStep, hfind, hk, hh, hD]
    rw [if_neg hne]
    simp only [hp]
    rfl

theorem C9_witness :
    dispatchOnExecute 3 c9w 3 =
      (some 1, writeTextM 2 c9w 1 "head: invalid number of items") ∧
    dispatchOnExecute 3 c9w 8 =
      (some 2, writeTextM 2 c9w 1 "grep: missing pattern") ∧
    dispatchOnExecute 3 c9w 9 =
      (some 0, exitP 2 (writeTextM 2 c9w 1
        "sh: exit: abc: numeric argument required") 2 2) := by
  refine ⟨?_, ?_, ?_⟩
  · exact (C9_argument_errors 2 c9w 3 0 _ "" none [] none false false
      rfl).1 rfl (by decide)
  · exact (C9_argument_errors 2 c9w 8 0 _ "" none [] none false false
      rfl).2.2.2.2.2.2.1 rfl (by decide)
  · exact (C9_argument_errors 2 c9w 9 2 _ "abc" none [] none false false
      rfl).2.2.2.2.2.2.2 rfl rfl (by decide) (by decide)

/-- C9 counterexample: `grep` with a missing pattern terminates with exit
code 2, not 1 as the claim states. -/
theorem C9_counterexample :
    Event.exited 8 2 ∈ (execute 5 c9w 8 []).log ∧
    Event.exited 8 1 ∉ (execute 5 c9w 8 []).log := by
  refine ⟨by decide, by decide⟩

/-! ## C10: interrupting a TTY shell -/

/-- An interactive shell (pid 2, `stdin` the TTY terminal) with a RUNNING
`sleep` job (pid 3) in the foreground. -/
def c10w : World :=
  { procs := [
      (0, { termProc with state := .running, stdout := 3, children := [1, 2] }),
      (1, termErrProc),
      (2, { parent := some 0, job := [2], stdin := 0, stdout := 0, stderr := 1,
            state := .running, inputEnabled := false, prompt := "$ ",
            vars := [("?", "0")], children := [3],
            kind := .shell { loaded := true, jobRunning := true } }),
      (3, { parent := some 2, job := [3], stdin := 0, stdout := 0, stderr := 1,
            state := .running, kind := .sleep true })],
    nextPid := 4 }

/-- C10 (amended): `Shell.onInterrupt` itself is a no-op when the shell's
stdin is a TTY, and only a non-TTY shell falls through to the default
(bubble to parent, then exit 130); a `sleep` job member aborts its timer
and follows the default behavior.  But after Ctrl-C interrupts the
foreground job, the interactive shell — though it stays RUNNING — does
not keep all of its fields: the job member's `exit(130)` reaches the
shell's `onReturn`, which sets `?` to `130`, repaints the prompt
error-styled and clears the job (refuting the original claim's
"all of its fields unchanged"; see `C10_counterexample`). -/
theorem C10_shell_interrupt (n : Nat) (w : World) (p : Nat) (π : Proc)
    (ss : ShellState) (pend : Bool)
    (hfind : w.find p = some π) :
    (π.kind = .shell ss → ((w.find π.stdin).map Proc.tty).getD false = true →
       dispatchOnInterrupt (n + 1) w p = w) ∧
    (π.kind = .shell ss → ((w.find π.stdin).map Proc.tty).getD false = false →
       dispatchOnInterrupt (n + 1) w p = defaultOnInterrupt n w p) ∧
    (π.kind = .sleep pend →
       dispatchOnInterrupt (n + 1) w p =
         defaultOnInterrupt n (w.updF p (fun q => { q with kind := .sleep false })) p) ∧
    (defaultOnInterrupt (n + 1) w p =
       exitP n (match π.parent with
         | some par => interruptP n w par
         | none => w) p 130) ∧
    ((termCtrlC 10 c10w 0).stateOf 2 = some .running ∧
     getVar (termCtrlC 10 c10w 0) 2 "?" = some "130" ∧
     Event.exited 3 130 ∈ (termCtrlC 10 c10w 0).log ∧
     (termCtrlC 10 c10w 0).stateOf 3 = some .terminated) := by
  refine ⟨?_, ?_, ?_, ?_, by decide, by decide, by decide, by decide⟩
  · intro hk h
    simp only [dispatchOnInterrupt, interp, interpStep, hfind, hk, h]
    rfl
  · intro hk h
    simp only [dispatchOnInterrupt, interp, interpStep, hfind, hk, h]
    rfl
  · intro hk
    simp only [dispatchOnInterrupt, interp, interpStep, hfind, hk]
    rfl
  · simp only [defaultOnInterrupt, interp, interpStep, hfind]
    rfl

theorem C10_witness :
    dispatchOnInterrupt 10 c10w 2 = c10w := by
  exact (C10_shell_interrupt 9 c10w 2 _ { loaded := true, jobRunning := true }
    false rfl).1 rfl (by decide)

/-- C10 counterexample: after Ctrl-C on the terminal with the `sleep`
job in the foreground, the interactive shell is still RUNNING but its
fields are not unchanged: `?` went from `"0"` to `"130"` and the prompt
was repainted error-styled. -/
theorem C10_counterexample :
    getVar c10w 2 "?" = some "0" ∧
    getVar (termCtrlC 10 c10w 0) 2 "?" = some "130" ∧
    ((termCtrlC 10 c10w 0).find 2).map Proc.prompt =
      some "<span class=\"error\">$ </span>" ∧
    (termCtrlC 10 c10w 0).stateOf 2 = some .running := by
  refine ⟨by decide, by decide, by decide, by decide⟩
